import Mathlib

set_option autoImplicit false

/-!
Verification of the proof-of-work difficulty target engine of `lib/pow.py`
(classes `PoW` and `PoW_AUR`).

Embedding conventions, matching the Python 2 source:
* Python integers are `ℕ`/`ℤ`; Python 2 integer division `/` on ints (floor
  division) is `Int.fdiv`.
* Python floats are modeled as exact rationals `ℚ` where the values involved
  are exactly representable and only their order matters; the one genuinely
  transcendental float expression (the KGW event-horizon
  `1 + 0.7084 * (mass/144.0) ** -1.228`) is a parameter `horizon : ℕ → ℚ`.
* `"%064x" % target` produces exactly 64 hex digits for `0 ≤ target < 2^256`;
  the `[2:]` slice keeps the low 31 bytes, i.e. `target % 2^248`.  For a
  negative int the slice drops the sign and the leading pad zero instead, so
  the kept window is `target.natAbs % 2^248` in both cases.
  Applying `"%064x"` to a Python 2.7 float raises
  `TypeError: %x format: a number is required, not float`.
* Fallible operations return `Except Err`; `assert` failures, `NoneType`
  attribute/subscript errors, iterating over `None`, and the float-format
  `TypeError` are the four failure modes that occur.
-/

/-- Failure modes of the engine (Python exceptions). -/
inductive Err where
  /-- A failed `assert` statement. -/
  | assertFail : Err
  /-- Attribute access / subscript on `None` (`AttributeError`/`TypeError`). -/
  | noneAttr : Err
  /-- Error for `for h in chain` with `chain = None` (`TypeError`). -/
  | noneIter : Err
  /-- Error for `"%064x" % new_target` with a float `new_target` (`TypeError`, Python 2.7). -/
  | floatFormat : Err
deriving DecidableEq

/-- A block header, as far as the engine reads it: `bits`, `timestamp` and
`block_height` of the Python header dict. -/
structure Header where
  bits : ℕ
  timestamp : ℤ
  block_height : ℤ
deriving DecidableEq

/-- The persistent header store collaborator: `blockchain.read_header(height)`. -/
def Store : Type := ℤ → Option Header

/-- The caller-supplied reorg buffer (`chain` parameter, default `None`). -/
def Chain : Type := Option (List Header)

namespace PoW

/-- The byte-stripping loop of `target_to_bits`/`normalize_target_to_bits`:
`while c[:2] == '00' and len(c) > 6: c = c[2:]`.  The second argument is the
current length of `c` in bytes (initially 31); the condition `c[:2] == '00'`
on a window of `L+1` bytes holding the value `t` is `t < 2^(8*L)`. -/
def stripLoop (t : ℕ) : ℕ → ℕ
  | 0 => 0
  | L + 1 => if 3 < L + 1 ∧ t < 2 ^ (8 * L) then stripLoop t L else L + 1

/-- Model of `PoW.bits_to_target` without its two `assert`s (which are modeled by
`validBits` / `bits_to_target_checked`): `(bits & 0xffffff) << (8*(bitsN-3))`. -/
def bits_to_target (bits : ℕ) : ℕ :=
  (bits &&& 0xffffff) <<< (8 * (((bits >>> 24) &&& 0xff) - 3))

/-- The two `assert`ed preconditions of `PoW.bits_to_target`:
exponent in `[0x03, 0x1e]` and mantissa in `[0x8000, 0x7fffff]`. -/
def validBits (bits : ℕ) : Prop :=
  (3 ≤ (bits >>> 24) &&& 0xff ∧ (bits >>> 24) &&& 0xff ≤ 0x1e) ∧
    (0x8000 ≤ bits &&& 0xffffff ∧ bits &&& 0xffffff ≤ 0x7fffff)

instance (bits : ℕ) : Decidable (validBits bits) := by
  unfold validBits; infer_instance

/-- Model of `PoW.bits_to_target` with its `assert`s: fails with `assertFail` exactly
when the compact encoding is malformed. -/
def bits_to_target_checked (bits : ℕ) : Except Err ℕ :=
  let bitsN := (bits >>> 24) &&& 0xff
  if 3 ≤ bitsN ∧ bitsN ≤ 0x1e then
    let bitsBase := bits &&& 0xffffff
    if 0x8000 ≤ bitsBase ∧ bitsBase ≤ 0x7fffff then
      .ok (bitsBase <<< (8 * (bitsN - 3)))
    else .error .assertFail
  else .error .assertFail

/-- Model of `PoW.target_to_bits`: render the (low 31 bytes of the) target, strip
leading zero bytes down to at least 3 bytes, take the top 3 bytes as mantissa,
and bump the exponent when the mantissa's high bit is set. -/
def target_to_bits (target : ℕ) : ℕ :=
  let t := target % 2 ^ 248
  let bitsN := stripLoop t 31
  let bitsBase := t / 2 ^ (8 * (bitsN - 3))
  if 0x800000 ≤ bitsBase then ((bitsN + 1) <<< 24) ||| (bitsBase >>> 8)
  else (bitsN <<< 24) ||| bitsBase

/-- Model of `PoW.normalize_target_to_bits`: same computation as `target_to_bits` but
also returns the target value reconstructible from the compact form.  The
argument is an `ℤ` because `PoW_AUR` policies can in principle feed it a
(clamped) integer expression; `"%064x"` of a negative int keeps the window
`natAbs % 2^248` (sign and pad are sliced off). -/
def normalize_target_to_bits (target : ℤ) : ℕ × ℕ :=
  let t := target.natAbs % 2 ^ 248
  let bitsN := stripLoop t 31
  let bitsBase := t / 2 ^ (8 * (bitsN - 3))
  if 0x800000 ≤ bitsBase then
    (((bitsN + 1) <<< 24) ||| (bitsBase >>> 8), (bitsBase >>> 8) <<< (8 * (bitsN + 1 - 3)))
  else ((bitsN <<< 24) ||| bitsBase, bitsBase <<< (8 * (bitsN - 3)))

/-- Model of `PoW.get_pow_limit` (Litecoin). -/
def get_pow_limit : ℕ := 0x1e0ffff0

/-- Model of `PoW.get_max_target` (Litecoin): `bits_to_target(get_pow_limit())`. -/
def get_max_target : ℕ := bits_to_target get_pow_limit

end PoW

/-- Number of significant bytes of the minimal big-endian representation of a
natural number (`sigBytes 0 = 0`), via an explicit fuel so that the kernel can
evaluate it. -/
def sigBytesAux : ℕ → ℕ → ℕ
  | 0, _ => 0
  | fuel + 1, t => if t = 0 then 0 else sigBytesAux fuel (t / 256) + 1

/-- Number of significant bytes of `t`. -/
def sigBytes (t : ℕ) : ℕ := sigBytesAux t t

namespace PoW

/-- Resolution of the `last` header in `PoW.get_target` (lines 100-104):
query the store, then scan the reorg buffer, the LAST matching entry
winning (`last = h` inside the loop, no `break`); iterating a `None` buffer
raises `TypeError`. -/
def lookup_last (store : Store) (chain : Chain) (last_height : ℤ) :
    Except Err (Option Header) :=
  match store last_height with
  | some l => .ok (some l)
  | none =>
    match chain with
    | none => .error .noneIter
    | some ch =>
      .ok (ch.foldl (fun acc h => if h.block_height = last_height then some h else acc) none)

/-- Model of `PoW.get_target` (Litecoin linear retarget, recomputed at every height).

Numeric subtleties of the Python 2 source modeled here:
* `nTargetTimeSpan = 3.5 * 24 * 60 * 60` is the float `302400.0`, so
  `interval = get_difficultyAdjustmentInterval()` is exactly `2016.0` and
  `(target * nActualTimespan) / nTargetTimespan` is float division: the
  result `q` is always a Python float (modeled as an exact rational).
* `min(self.get_max_target(), q)` returns the int `get_max_target()` when it
  is `≤ q`, and the float `q` otherwise; in the latter case
  `normalize_target_to_bits` applies `"%064x"` to a float, which raises
  `TypeError` in Python 2.7 (`floatFormat`).
* The `first` lookup (line 99) queries only the store; the `last` lookup
  falls back to the reorg buffer, the last matching entry winning.  `first`
  being `None` surfaces as an `AttributeError` at `first.get('timestamp')`
  only after `last` has been resolved and its bits decoded. -/
def get_target (height : ℤ) (store : Store) (chain : Chain) : Except Err (ℕ × ℕ) :=
  if height = 0 then .ok (get_pow_limit, get_max_target)
  else
    let interval : ℤ := 2016
    let last_height := height - 1
    let first! := store (if interval < last_height then last_height - interval else 0)
    match lookup_last store chain last_height with
    | .error e => .error e
    | .ok none => .error .assertFail
    | .ok (some last) =>
      match bits_to_target_checked last.bits with
      | .error e => .error e
      | .ok target =>
        match first! with
        | none => .error .noneAttr
        | some first =>
          let nActualTimespan : ℚ := ((last.timestamp - first.timestamp : ℤ) : ℚ)
          let nActualTimespan := max nActualTimespan (302400 / 4)
          let nActualTimespan := min nActualTimespan (302400 * 4)
          let q : ℚ := (target : ℚ) * nActualTimespan / 302400
          if q < (get_max_target : ℚ) then .error .floatFormat
          else .ok (normalize_target_to_bits (get_max_target : ℤ))

end PoW

namespace PoW_AUR

/-- The five supported PoW algorithms (`ALGO_*` constants). -/
inductive Algo where
  | sha256d : Algo
  | scrypt : Algo
  | groestl : Algo
  | skein : Algo
  | qubit : Algo
deriving DecidableEq

/-- Constant `MAX_TARGET_ALGO_SHA256D` (source comment: `~uint256(0) >> 32`). -/
def MAX_TARGET_ALGO_SHA256D : ℕ :=
  0x00000000FFFFFFFFFFFFFFFFFFFFFFFFFFFFFFFFFFFFFFFFFFFFFFFFFFFFFFFF

/-- Constant `MAX_TARGET_ALGO_SCRYPT` (source comment: `~uint256(0) >> 20`). -/
def MAX_TARGET_ALGO_SCRYPT : ℕ :=
  0x00000FFFFFFFFFFFFFFFFFFFFFFFFFFFFFFFFFFFFFFFFFFFFFFFFFFFFFFFFFFF

/-- Constant `MAX_TARGET_ALGO_GROESTL` (source comment: `~uint256(0) >> 23`). -/
def MAX_TARGET_ALGO_GROESTL : ℕ :=
  0x000001FFFFFFFFFFFFFFFFFFFFFFFFFFFFFFFFFFFFFFFFFFFFFFFFFFFFFFFFFF

/-- Constant `MAX_TARGET_ALGO_SKEIN` (source comment: `~uint256(0) >> 23`). -/
def MAX_TARGET_ALGO_SKEIN : ℕ :=
  0x000001FFFFFFFFFFFFFFFFFFFFFFFFFFFFFFFFFFFFFFFFFFFFFFFFFFFFFFFFFF

/-- Constant `MAX_TARGET_ALGO_QUBIT` (source comment: `~uint256(0) >> 22`). -/
def MAX_TARGET_ALGO_QUBIT : ℕ :=
  0x000003FFFFFFFFFFFFFFFFFFFFFFFFFFFFFFFFFFFFFFFFFFFFFFFFFFFFFFFFFF

/-- The per-algorithm maximum-target table of `PoW_AUR.get_pow_limit`
(the dict lookup with `ALGO_SCRYPT` as default; `Algo` is closed, so the
match is total). -/
def maxTargetTable (algo : Algo) : ℕ :=
  match algo with
  | .sha256d => MAX_TARGET_ALGO_SHA256D
  | .scrypt => MAX_TARGET_ALGO_SCRYPT
  | .groestl => MAX_TARGET_ALGO_GROESTL
  | .skein => MAX_TARGET_ALGO_SKEIN
  | .qubit => MAX_TARGET_ALGO_QUBIT

/-- Model of `PoW_AUR.get_pow_limit(algo)`: `target_to_bits` of the table constant. -/
def get_pow_limit (algo : Algo) : ℕ := PoW.target_to_bits (maxTargetTable algo)

/-- Model of `PoW_AUR.get_max_target(algo)`: `bits_to_target(get_pow_limit(algo))`.
(The computed pow limits are valid compact encodings, so the `assert`s in
`bits_to_target` pass.) -/
def get_max_target (algo : Algo) : ℕ := PoW.bits_to_target (get_pow_limit algo)

/-- Model of `PoW_AUR.get_algo(block_version)`: mask the version with
`BLOCK_VERSION_ALGO = 7 << 9` and map via the table, defaulting to
`ALGO_SCRYPT`. -/
def get_algo (block_version : ℕ) : Algo :=
  let m := block_version &&& (7 <<< 9)
  if m = 1 <<< 9 then .sha256d
  else if m = 2 <<< 9 then .groestl
  else if m = 3 <<< 9 then .skein
  else if m = 4 <<< 9 then .qubit
  else .scrypt

/-- Which hash routine `PoW_AUR.pow_hash_header` ends up invoking. -/
inductive HashFun where
  /-- Routine `pow_scrypt_hash_header` (`ltc_scrypt`). -/
  | scryptPow : HashFun
  /-- Routine `pow_groestl_hash_header` (`groestl_hash`). -/
  | groestlPow : HashFun
  /-- Routine `pow_skein_hash_header` (`skeinhash`). -/
  | skeinPow : HashFun
  /-- Routine `pow_qubit_hash_header` (`qubit_hash`). -/
  | qubitPow : HashFun
  /-- Routine `self.blockchain.hash_header`, the dict-lookup default (taken for
  `ALGO_SHA256D`, which has no entry in the routing dict). -/
  | chainHash : HashFun
deriving DecidableEq

/-- Model of `PoW_AUR.pow_hash_header`, reduced to which hash routine it invokes on a
header with the given `version`. -/
def pow_hash_header (block_version : ℕ) : HashFun :=
  match get_algo block_version with
  | .scrypt => .scryptPow
  | .groestl => .groestlPow
  | .skein => .skeinPow
  | .qubit => .qubitPow
  | .sha256d => .chainHash

/-- Model of `PoW_AUR.get_header(height, chain)`: query the store, then scan the reorg
buffer (first match wins); iterating a `None` buffer raises `TypeError`. -/
def get_header (store : Store) (chain : Chain) (height : ℤ) : Except Err (Option Header) :=
  match store height with
  | some h => .ok (some h)
  | none =>
    match chain with
    | none => .error .noneIter
    | some ch => .ok (ch.find? (fun h => decide (h.block_height = height)))

/-- Model of `PoW_AUR.multiAlgoDiffChangeTarget`. -/
def multiAlgoDiffChangeTarget : ℤ := 225000

/-- Model of `PoW_AUR.get_target_original` (legacy linear retarget variant).

`nTargetTimeSpan = 8*10*60 = 4800` and `nTargetSpacing = 10*60 = 600` are
ints, so `interval = 4800/600 = 8` and all divisions are Python 2 floor
divisions (`Int.fdiv`).  Note that the `last` lookup calls
`self.get_header(last_height)` without the `chain` argument, so a store miss
iterates `None` instead of falling back to the buffer; the `first` lookup
does pass `chain`. -/
def get_target_original (height : ℤ) (store : Store) (chain : Chain) : Except Err (ℕ × ℕ) :=
  if height = 0 then .ok (get_pow_limit .scrypt, get_max_target .scrypt)
  else if height < 135 then .ok (get_pow_limit .scrypt, get_max_target .scrypt)
  else
    let interval : ℤ := 8
    let last_height := height - 1
    match get_header store none last_height with
    | .error e => .error e
    | .ok none => .error .assertFail
    | .ok (some last) =>
      match PoW.bits_to_target_checked last.bits with
      | .error e => .error e
      | .ok last_target =>
        if height % interval ≠ 0 then .ok (last.bits, last_target)
        else
          let first_height := if height = interval then 0 else last_height - interval
          match get_header store chain first_height with
          | .error e => .error e
          | .ok none => .error .noneAttr
          | .ok (some first) =>
            let nTargetTimespan : ℤ := 4800
            let nActualTimespan := last.timestamp - first.timestamp
            let nActualTimespan := max nActualTimespan ((nTargetTimespan * 50).fdiv 75)
            let nActualTimespan := min nActualTimespan ((nTargetTimespan * 75).fdiv 50)
            let new_target :=
              min ((get_max_target .scrypt : ℤ)) (((last_target : ℤ) * nActualTimespan).fdiv nTargetTimespan)
            .ok (PoW.normalize_target_to_bits new_target)

/-- Loop state of `kimotoGravityWell` (the `past*` locals). -/
structure KGWState where
  /-- Local `PastBlocksMass`. -/
  mass : ℕ
  /-- Local `BlockReading` (a height). -/
  reading : ℤ
  /-- Local `PastDifficultyAverage`. -/
  avg : ℤ
  /-- Local `PastDifficultyAveragePrev`. -/
  avgPrev : ℤ
  /-- Local `PastRateActualSeconds`. -/
  actual : ℤ
  /-- Local `PastRateTargetSeconds`. -/
  tsec : ℤ
  /-- Local `PastRateAdjustmentRatio` (a Python float, modeled as exact `ℚ`). -/
  rAdj : ℚ
deriving DecidableEq

/-- One iteration of the `kimotoGravityWell` walk (loop body, lines 258-286).
Returns the updated state and whether the event-horizon break fired.
`horizon mass` stands for the IEEE-double value of
`1 + 0.7084 * (mass/144.0) ** -1.228` (`EventHorizonDeviation`); the slow
bound is its reciprocal.  On a break the `BlockReading` decrement is skipped. -/
def kgwBody (store : Store) (chain : Chain) (lastHdr : Option Header) (spacing : ℤ)
    (pastMin : ℕ) (horizon : ℕ → ℚ) (i : ℕ) (st : KGWState) : Except Err (KGWState × Bool) :=
  match get_header store chain st.reading with
  | .error e => .error e
  | .ok none => .error .noneAttr
  | .ok (some rh) =>
    let mass := st.mass + 1
    match PoW.bits_to_target_checked rh.bits with
    | .error e => .error e
    | .ok rt =>
      let avg : ℤ :=
        if i = 1 then (rt : ℤ) else ((rt : ℤ) - st.avgPrev).fdiv (i : ℤ) + st.avgPrev
      match lastHdr with
      | none => .error .noneAttr
      | some lh =>
        let actual := lh.timestamp - rh.timestamp
        let tsec := spacing * (mass : ℤ)
        let rAdj : ℚ := 1
        let actual := if actual < 0 then 0 else actual
        let rAdj := if actual ≠ 0 ∧ tsec ≠ 0 then (tsec : ℚ) / (actual : ℚ) else rAdj
        let ehFast := horizon mass
        let ehSlow := 1 / ehFast
        let brk := (pastMin : ℕ) ≤ mass ∧ (rAdj ≤ ehSlow ∨ ehFast ≤ rAdj)
        if brk then
          .ok ({ mass := mass, reading := st.reading, avg := avg, avgPrev := avg,
                 actual := actual, tsec := tsec, rAdj := rAdj }, true)
        else
          .ok ({ mass := mass, reading := st.reading - 1, avg := avg, avgPrev := avg,
                 actual := actual, tsec := tsec, rAdj := rAdj }, false)

/-- The `for i in range(1, PastBlocksMax+1)` loop of `kimotoGravityWell`,
driven by explicit fuel (`fuel = PastBlocksMax - i + 1` at entry).  The
first guard mirrors the (unreachable for `i ≤ PastBlocksMax`) source line
`if PastBlocksMax > 0 and i > PastBlocksMax: break`. -/
def kgwLoop (store : Store) (chain : Chain) (lastHdr : Option Header) (spacing : ℤ)
    (pastMin : ℕ) (horizon : ℕ → ℚ) (pastMax : ℕ) :
    ℕ → ℕ → KGWState → Except Err KGWState
  | 0, _, st => .ok st
  | fuel + 1, i, st =>
    if 0 < pastMax ∧ pastMax < i then .ok st
    else
      match kgwBody store chain lastHdr spacing pastMin horizon i st with
      | .error e => .error e
      | .ok (st', true) => .ok st'
      | .ok (st', false) =>
        kgwLoop store chain lastHdr spacing pastMin horizon pastMax fuel (i + 1) st'

/-- Model of `PoW_AUR.kimotoGravityWell`.  After the walk, the difficulty average is
scaled by `actual/target` seconds (only when both are nonzero, with Python 2
floor divisions), clamped from above by `get_max_target()`, and normalized. -/
def kimotoGravityWell (height : ℤ) (store : Store) (chain : Chain) (spacing : ℤ)
    (pastMin pastMax : ℕ) (horizon : ℕ → ℚ) : Except Err (ℕ × ℕ) :=
  let blockLastSolved := height - 1
  if blockLastSolved = 0 ∨ blockLastSolved < (pastMin : ℤ) then
    .ok (get_pow_limit .scrypt, get_max_target .scrypt)
  else
    match get_header store chain blockLastSolved with
    | .error e => .error e
    | .ok lastHdr =>
      let st0 : KGWState :=
        { mass := 0, reading := blockLastSolved, avg := 0, avgPrev := 0,
          actual := 0, tsec := 0, rAdj := 1 }
      match kgwLoop store chain lastHdr spacing pastMin horizon pastMax pastMax 1 st0 with
      | .error e => .error e
      | .ok st =>
        let new_target := st.avg
        let new_target :=
          if st.actual ≠ 0 ∧ st.tsec ≠ 0 then (new_target * st.actual).fdiv st.tsec
          else new_target
        let new_target :=
          if (get_max_target .scrypt : ℤ) < new_target then (get_max_target .scrypt : ℤ)
          else new_target
        .ok (PoW.normalize_target_to_bits new_target)

/-- Model of `PoW_AUR.get_target_KGW`: `nBlocksTargetSpacing = 5*60 = 300`,
`nPastBlocksMin = (86400*0.5)/300 = 144.0`, `nPastBlocksMax = 86400*14/300 =
4032` (the float `144.0` compares exactly as the int `144`). -/
def get_target_KGW (height : ℤ) (store : Store) (chain : Chain) (horizon : ℕ → ℚ) :
    Except Err (ℕ × ℕ) :=
  kimotoGravityWell height store chain 300 144 4032 horizon

/-- Model of `PoW_AUR.get_target_Multi`: a stub that delegates to
`get_target_original` (source comment: `TODO implement this`). -/
def get_target_Multi (height : ℤ) (store : Store) (chain : Chain) : Except Err (ℕ × ℕ) :=
  get_target_original height store chain

/-- Model of `PoW_AUR.get_target`: the difficulty-mode selector. -/
def get_target (height : ℤ) (store : Store) (chain : Chain) (horizon : ℕ → ℚ) :
    Except Err (ℕ × ℕ) :=
  let diffMode : ℕ :=
    if height ≤ 5400 then 1
    else if height ≤ multiAlgoDiffChangeTarget then 2
    else 3
  if diffMode = 1 then get_target_original height store chain
  else if diffMode = 2 then get_target_KGW height store chain horizon
  else if diffMode = 3 then get_target_Multi height store chain
  else get_target_Multi height store chain

end PoW_AUR

/-- The running-average recurrence of the KGW walk, as the specification
states it: `avg_1 = target_1` and `avg_i = avg_(i-1) + (target_i -
avg_(i-1)) / i` for `i ≥ 2`, with Python 2 floor division.  `t i` is the
decoded target of the header read at iteration `i`. -/
def kgwAvg (t : ℕ → ℤ) : ℕ → ℤ
  | 0 => 0
  | 1 => t 1
  | i + 2 => (t (i + 2) - kgwAvg t (i + 1)).fdiv ((i : ℤ) + 2) + kgwAvg t (i + 1)

/-- Header read at iteration `m` of the KGW walk starting from `height`
(`BlockReading = height - m` there), resolved through
`PoW_AUR.get_header`; `none` on any lookup failure. -/
def kgwHdrAt (store : Store) (chain : Chain) (height : ℤ) (m : ℕ) : Option Header :=
  match PoW_AUR.get_header store chain (height - (m : ℤ)) with
  | .ok o => o
  | .error _ => none

/-- Decoded target of the header read at iteration `m` of the KGW walk
(junk value `0` when the header is absent; never consulted in that case). -/
def kgwTargetAt (store : Store) (chain : Chain) (height : ℤ) (m : ℕ) : ℤ :=
  match kgwHdrAt store chain height m with
  | some hh => (PoW.bits_to_target hh.bits : ℤ)
  | none => 0

/-- Timestamp of the header read at iteration `m` of the KGW walk
(junk value `0` when the header is absent). -/
def kgwReadTs (store : Store) (chain : Chain) (height : ℤ) (m : ℕ) : ℤ :=
  match kgwHdrAt store chain height m with
  | some hh => hh.timestamp
  | none => 0

/-- Value of `PastRateActualSeconds` after `m` iterations of the KGW walk:
the elapsed time from the reading at iteration `m` to the last solved block,
clamped below at `0` (and `0` before the first iteration). -/
def kgwActualAt (lastTs : ℤ) (store : Store) (chain : Chain) (height : ℤ) (m : ℕ) : ℤ :=
  if m = 0 then 0
  else
    let d := lastTs - kgwReadTs store chain height m
    if d < 0 then 0 else d

/-- Compact encoder as the specification literally words it (for comparison
with `PoW.target_to_bits`): `N` = number of significant bytes of the minimal
big-endian rendering, mantissa = top (at most 3) significant bytes, with the
high-bit renormalization. -/
def specEncode (target : ℕ) : ℕ :=
  let n := sigBytes target
  let base := target / 2 ^ (8 * (n - 3))
  if 0x800000 ≤ base then (n + 1) * 2 ^ 24 + base / 2 ^ 8
  else n * 2 ^ 24 + base

/-- Fixture: a Litecoin-style header at height 0. -/
def hdr0 : Header := ⟨0x1e0ffff0, 0, 0⟩

/-- Fixture: a Litecoin-style header at height 9, timestamped far enough
after `hdr0` that the retarget clamps at the 4x ceiling. -/
def hdr9 : Header := ⟨0x1e0ffff0, 2419200, 9⟩

/-- Fixture store for the classic linear policy: headers at heights 0 and 9,
actual timespan `151200` (half the target timespan, inside the clamp band). -/
def storeA : Store := fun z =>
  if z = 9 then some ⟨0x1e0ffff0, 151200, 9⟩
  else if z = 0 then some hdr0
  else none

/-- Fixture store for the classic linear policy: actual timespan `2419200`
(8x the target timespan, clamped to 4x, so the quotient reaches the cap). -/
def storeB : Store := fun z =>
  if z = 9 then some hdr9
  else if z = 0 then some hdr0
  else none

/-- Fixture store holding only the height-9 header (height 0 missing). -/
def storeC : Store := fun z => if z = 9 then some ⟨0x1e0ffff0, 1000, 9⟩ else none

/-- Fixture store holding only the height-0 header (height 9 missing). -/
def storeD : Store := fun z => if z = 0 then some hdr0 else none

/-- Fixture: the empty store. -/
def storeE : Store := fun _ => none

/-- Fixture store for the legacy variant's echo branch: a height-140 header
whose bits `0x1e7fffff` decode above the SCRYPT pow limit. -/
def storeF : Store := fun z => if z = 140 then some ⟨0x1e7fffff, 0, 140⟩ else none

/-- Fixture store for a short KGW walk: headers at heights 9 and 8, spaced
300 seconds apart. -/
def storeG : Store := fun z =>
  if z = 9 then some ⟨0x1e0ffff0, 1000, 9⟩
  else if z = 8 then some ⟨0x1e0ffff0, 700, 8⟩
  else none

/-- Fixture event-horizon function: the constant `2`. -/
def horTwo : ℕ → ℚ := fun _ => 2

/-- Decidable equality for policy results, so that concrete runs of the
engine can be checked by `decide`. -/
instance : DecidableEq (Except Err (ℕ × ℕ)) := fun a b =>
  match a, b with
  | .ok x, .ok y =>
    if h : x = y then isTrue (by rw [h]) else isFalse (fun hc => h (Except.ok.inj hc))
  | .error e, .error f =>
    if h : e = f then isTrue (by rw [h]) else isFalse (fun hc => h (Except.error.inj hc))
  | .ok _, .error _ => isFalse (fun hc => Except.noConfusion hc)
  | .error _, .ok _ => isFalse (fun hc => Except.noConfusion hc)

/-- Decidable equality for decode results. -/
instance : DecidableEq (Except Err ℕ) := fun a b =>
  match a, b with
  | .ok x, .ok y =>
    if h : x = y then isTrue (by rw [h]) else isFalse (fun hc => h (Except.ok.inj hc))
  | .error e, .error f =>
    if h : e = f then isTrue (by rw [h]) else isFalse (fun hc => h (Except.error.inj hc))
  | .ok _, .error _ => isFalse (fun hc => Except.noConfusion hc)
  | .error _, .ok _ => isFalse (fun hc => Except.noConfusion hc)

/-- Decidable equality for header-lookup results. -/
instance : DecidableEq (Except Err (Option Header)) := fun a b =>
  match a, b with
  | .ok x, .ok y =>
    if h : x = y then isTrue (by rw [h]) else isFalse (fun hc => h (Except.ok.inj hc))
  | .error e, .error f =>
    if h : e = f then isTrue (by rw [h]) else isFalse (fun hc => h (Except.error.inj hc))
  | .ok _, .error _ => isFalse (fun hc => Except.noConfusion hc)
  | .error _, .ok _ => isFalse (fun hc => Except.noConfusion hc)

/-! ## Codec lemmas -/

theorem lor_shift24 (n m : ℕ) (hm : m < 2 ^ 24) : (n <<< 24) ||| m = n * 2 ^ 24 + m := by
  apply Nat.eq_of_testBit_eq
  intro i
  rw [Nat.testBit_lor, Nat.mul_comm n (2 ^ 24), Nat.testBit_mul_pow_two_add _ hm,
    Nat.testBit_shiftLeft]
  rcases lt_or_le i 24 with h | h
  · simp [h, Nat.not_le_of_lt h]
  · simp [h, Nat.not_lt_of_le h, ge_iff_le,
      Nat.testBit_eq_false_of_lt (lt_of_lt_of_le hm (Nat.pow_le_pow_right (by norm_num) h))]

theorem stripLoop_ge_three (t : ℕ) : ∀ L, 3 ≤ L → 3 ≤ PoW.stripLoop t L := by
  intro L
  induction L with
  | zero => intro h; omega
  | succ n ih =>
    intro h
    rw [PoW.stripLoop]
    by_cases hc : 3 < n + 1 ∧ t < 2 ^ (8 * n)
    · rw [if_pos hc]; exact ih (by omega)
    · rw [if_neg hc]; omega

theorem stripLoop_of_lt (t : ℕ) (ht : t < 2 ^ 24) : ∀ L, 3 ≤ L → PoW.stripLoop t L = 3 := by
  intro L
  induction L with
  | zero => intro h; omega
  | succ n ih =>
    intro h
    rw [PoW.stripLoop]
    by_cases hn : 3 ≤ n
    · rw [if_pos ⟨by omega, lt_of_lt_of_le ht (Nat.pow_le_pow_right (by norm_num) (by omega))⟩]
      exact ih hn
    · have hn2 : n = 2 := by omega
      subst hn2
      rw [if_neg (fun hcon => by omega)]

theorem stripLoop_of_bounds (t k : ℕ) (h3 : 3 ≤ k) (hlow : 2 ^ (8 * (k - 1)) ≤ t)
    (hup : t < 2 ^ (8 * k)) : ∀ L, k ≤ L → PoW.stripLoop t L = k := by
  intro L
  induction L with
  | zero => intro h; omega
  | succ n ih =>
    intro hkL
    rw [PoW.stripLoop]
    by_cases heq : k = n + 1
    · subst heq
      have hlow' : 2 ^ (8 * n) ≤ t := by simpa using hlow
      rw [if_neg (fun hcon => absurd hcon.2 (Nat.not_lt.mpr hlow'))]
    · have hk : k ≤ n := by omega
      rw [if_pos ⟨by omega, lt_of_lt_of_le hup (Nat.pow_le_pow_right (by norm_num) (by omega))⟩]
      exact ih hk

theorem sigBytesAux_zero : ∀ fuel, sigBytesAux fuel 0 = 0 := by
  intro fuel; cases fuel <;> simp [sigBytesAux]

theorem sigBytesAux_spec : ∀ fuel t, t ≤ fuel →
    t < 2 ^ (8 * sigBytesAux fuel t) ∧ (t ≠ 0 → 2 ^ (8 * (sigBytesAux fuel t - 1)) ≤ t) := by
  intro fuel
  induction fuel with
  | zero =>
    intro t ht
    have ht0 : t = 0 := by omega
    subst ht0
    simp [sigBytesAux]
  | succ n ih =>
    intro t ht
    by_cases h0 : t = 0
    · subst h0; simp [sigBytesAux_zero]
    · rw [sigBytesAux, if_neg h0]
      have hdiv : t / 256 ≤ n := by
        have h1 : t / 256 < t := Nat.div_lt_self (Nat.pos_of_ne_zero h0) (by norm_num)
        omega
      obtain ⟨ih1, ih2⟩ := ih (t / 256) hdiv
      constructor
      · have h1 : t / 256 + 1 ≤ 2 ^ (8 * sigBytesAux n (t / 256)) := ih1
        have h3 : 256 * (t / 256 + 1) ≤ 256 * 2 ^ (8 * sigBytesAux n (t / 256)) :=
          Nat.mul_le_mul_left _ h1
        have h4 : 2 ^ (8 * (sigBytesAux n (t / 256) + 1)) =
            256 * 2 ^ (8 * sigBytesAux n (t / 256)) := by
          rw [show 8 * (sigBytesAux n (t / 256) + 1) = 8 * sigBytesAux n (t / 256) + 8 by ring,
            pow_add]
          ring
        omega
      · intro _
        by_cases hq : t / 256 = 0
        · have hs0 : sigBytesAux n (t / 256) = 0 := by rw [hq, sigBytesAux_zero]
          rw [hs0]
          simpa using Nat.pos_of_ne_zero h0
        · have h5 := ih2 hq
          have hs1 : 1 ≤ sigBytesAux n (t / 256) := by
            rcases Nat.eq_zero_or_pos (sigBytesAux n (t / 256)) with h | h
            · rw [h] at ih1; simp at ih1; omega
            · exact h
          have h6 : 2 ^ (8 * sigBytesAux n (t / 256)) =
              2 ^ (8 * (sigBytesAux n (t / 256) - 1)) * 256 := by
            rw [show 8 * sigBytesAux n (t / 256) = 8 * (sigBytesAux n (t / 256) - 1) + 8
              by omega, pow_add]
            norm_num
          have h7 : 2 ^ (8 * (sigBytesAux n (t / 256) - 1)) * 256 ≤ t / 256 * 256 :=
            Nat.mul_le_mul_right _ h5
          simp only [Nat.add_sub_cancel]
          omega

theorem sigBytes_lt (t : ℕ) : t < 2 ^ (8 * sigBytes t) :=
  (sigBytesAux_spec t t le_rfl).1

theorem sigBytes_le (t : ℕ) (h : t ≠ 0) : 2 ^ (8 * (sigBytes t - 1)) ≤ t :=
  (sigBytesAux_spec t t le_rfl).2 h

theorem strip31 (t : ℕ) (ht : t < 2 ^ 248) : PoW.stripLoop t 31 = max 3 (sigBytes t) := by
  by_cases hlt : t < 2 ^ 24
  · rw [stripLoop_of_lt t hlt 31 (by norm_num)]
    have hs3 : sigBytes t ≤ 3 := by
      by_contra hgt
      push_neg at hgt
      have hne : t ≠ 0 := by
        intro h0
        rw [h0] at hgt
        simp [sigBytes, sigBytesAux] at hgt
      have h1 := sigBytes_le t hne
      have h2 : (2 : ℕ) ^ 24 ≤ 2 ^ (8 * (sigBytes t - 1)) :=
        Nat.pow_le_pow_right (by norm_num) (by omega)
      omega
    rw [Nat.max_eq_left hs3]
  · push_neg at hlt
    have hne : t ≠ 0 := by
      intro h0
      rw [h0] at hlt
      norm_num at hlt
    have hs4 : 4 ≤ sigBytes t := by
      by_contra hlt4
      push_neg at hlt4
      have h1 := sigBytes_lt t
      have h2 : (2 : ℕ) ^ (8 * sigBytes t) ≤ 2 ^ 24 :=
        Nat.pow_le_pow_right (by norm_num) (by omega)
      omega
    have hs31 : sigBytes t ≤ 31 := by
      by_contra hgt
      push_neg at hgt
      have h1 := sigBytes_le t hne
      have h2 : (2 : ℕ) ^ 248 ≤ 2 ^ (8 * (sigBytes t - 1)) :=
        Nat.pow_le_pow_right (by norm_num) (by omega)
      omega
    rw [Nat.max_eq_right (by omega)]
    exact stripLoop_of_bounds t (sigBytes t) (by omega) (sigBytes_le t hne) (sigBytes_lt t) 31 hs31

theorem target_to_bits_char (t0 n base : ℕ)
    (hn : n = max 3 (sigBytes (t0 % 2 ^ 248)))
    (hbase : base = t0 % 2 ^ 248 / 2 ^ (8 * (n - 3))) :
    PoW.target_to_bits t0 =
      if 0x800000 ≤ base then (n + 1) * 2 ^ 24 + base / 2 ^ 8 else n * 2 ^ 24 + base := by
  have ht : t0 % 2 ^ 248 < 2 ^ 248 := Nat.mod_lt _ (by positivity)
  have hn3 : 3 ≤ n := hn ▸ le_max_left _ _
  have htn : t0 % 2 ^ 248 < 2 ^ (8 * n) := by
    have h1 := sigBytes_lt (t0 % 2 ^ 248)
    have h2 : (2 : ℕ) ^ (8 * sigBytes (t0 % 2 ^ 248)) ≤ 2 ^ (8 * n) :=
      Nat.pow_le_pow_right (by norm_num) (by have := hn ▸ le_max_right 3 (sigBytes (t0 % 2 ^ 248)); omega)
    omega
  have hb24 : base < 2 ^ 24 := by
    rw [hbase, Nat.div_lt_iff_lt_mul (by positivity)]
    calc t0 % 2 ^ 248 < 2 ^ (8 * n) := htn
      _ = 2 ^ 24 * 2 ^ (8 * (n - 3)) := by rw [← pow_add]; congr 1; omega
  simp only [PoW.target_to_bits]
  rw [strip31 _ ht, ← hn, ← hbase]
  by_cases hc : 0x800000 ≤ base
  · rw [if_pos hc, if_pos hc, Nat.shiftRight_eq_div_pow,
      lor_shift24 _ _ (lt_of_le_of_lt (Nat.div_le_self _ _) hb24)]
  · rw [if_neg hc, if_neg hc, lor_shift24 _ _ hb24]

theorem roundtrip_core (q r : ℕ) (hq3 : 3 ≤ q) (hq30 : q ≤ 30) (hr1 : 0x8000 ≤ r)
    (hr2 : r ≤ 0x7fffff) :
    PoW.target_to_bits (r * 2 ^ (8 * (q - 3))) = q * 2 ^ 24 + r := by
  obtain ⟨p, rfl⟩ : ∃ p, q = p + 3 := ⟨q - 3, by omega⟩
  simp only [Nat.add_sub_cancel]
  have hp27 : p ≤ 27 := by omega
  have hbig : r * 2 ^ (8 * p) < 2 ^ 248 := by
    calc r * 2 ^ (8 * p) ≤ 0x7fffff * 2 ^ (8 * 27) :=
          Nat.mul_le_mul hr2 (Nat.pow_le_pow_right (by norm_num) (by omega))
      _ < 2 ^ 248 := by norm_num
  have hmod : r * 2 ^ (8 * p) % 2 ^ 248 = r * 2 ^ (8 * p) := Nat.mod_eq_of_lt hbig
  simp only [PoW.target_to_bits, hmod]
  by_cases hr16 : 2 ^ 16 ≤ r
  · have hstrip : PoW.stripLoop (r * 2 ^ (8 * p)) 31 = p + 3 := by
      apply stripLoop_of_bounds _ _ (by omega) _ _ 31 (by omega)
      · calc 2 ^ (8 * (p + 3 - 1)) = 2 ^ 16 * 2 ^ (8 * p) := by
              rw [← pow_add]; congr 1; omega
          _ ≤ r * 2 ^ (8 * p) := Nat.mul_le_mul_right _ hr16
      · calc r * 2 ^ (8 * p) < 2 ^ 23 * 2 ^ (8 * p) := by
              have h23 : r < 2 ^ 23 := by omega
              exact Nat.mul_lt_mul_of_lt_of_le h23 le_rfl (by positivity)
          _ ≤ 2 ^ (8 * (p + 3)) := by rw [← pow_add]; exact Nat.pow_le_pow_right (by norm_num) (by omega)
    rw [hstrip]
    simp only [Nat.add_sub_cancel]
    rw [Nat.mul_div_cancel _ (by positivity)]
    rw [if_neg (by omega)]
    rw [lor_shift24 _ _ (by omega)]
  · push_neg at hr16
    rcases Nat.eq_zero_or_pos p with hp0 | hp1
    · subst hp0
      simp only [Nat.mul_zero, pow_zero, Nat.mul_one]
      rw [stripLoop_of_lt r (by omega) 31 (by norm_num)]
      simp only [Nat.sub_self, Nat.mul_zero, pow_zero, Nat.div_one]
      rw [if_neg (by omega), lor_shift24 _ _ (by omega)]
    · obtain ⟨w, rfl⟩ : ∃ w, p = w + 1 := ⟨p - 1, by omega⟩
      have hstrip : PoW.stripLoop (r * 2 ^ (8 * (w + 1))) 31 = w + 3 := by
        apply stripLoop_of_bounds _ _ (by omega) _ _ 31 (by omega)
        · calc 2 ^ (8 * (w + 3 - 1)) = 2 ^ 8 * 2 ^ (8 * (w + 1)) := by
                rw [← pow_add]; congr 1; omega
            _ ≤ r * 2 ^ (8 * (w + 1)) := Nat.mul_le_mul_right _ (by omega)
        · calc r * 2 ^ (8 * (w + 1)) < 2 ^ 16 * 2 ^ (8 * (w + 1)) := by
                exact Nat.mul_lt_mul_of_lt_of_le hr16 le_rfl (by positivity)
            _ ≤ 2 ^ (8 * (w + 3)) := by rw [← pow_add]; exact Nat.pow_le_pow_right (by norm_num) (by omega)
      rw [hstrip]
      have hdiv : r * 2 ^ (8 * (w + 1)) / 2 ^ (8 * (w + 3 - 3)) = r * 2 ^ 8 := by
        rw [show 8 * (w + 1) = 8 + 8 * (w + 3 - 3) by omega, pow_add, ← Nat.mul_assoc,
          Nat.mul_div_cancel _ (by positivity)]
      rw [hdiv]
      rw [if_pos (by omega)]
      rw [Nat.shiftRight_eq_div_pow, Nat.mul_div_cancel _ (by positivity)]
      rw [lor_shift24 _ _ (by omega)]

theorem normalize_snd_le (t : ℕ) (h : t < 2 ^ 248) :
    (PoW.normalize_target_to_bits (t : ℤ)).2 ≤ t := by
  simp only [PoW.normalize_target_to_bits, Int.natAbs_ofNat, Nat.mod_eq_of_lt h]
  set L := PoW.stripLoop t 31 with hLdef
  have hL3 : 3 ≤ L := stripLoop_ge_three t 31 (by norm_num)
  by_cases hc : 0x800000 ≤ t / 2 ^ (8 * (L - 3))
  · rw [if_pos hc]
    show ((t / 2 ^ (8 * (L - 3))) >>> 8) <<< (8 * (L + 1 - 3)) ≤ t
    rw [Nat.shiftRight_eq_div_pow, Nat.shiftLeft_eq, Nat.div_div_eq_div_mul,
      show 8 * (L + 1 - 3) = 8 * (L - 3) + 8 by omega, pow_add]
    exact Nat.div_mul_le_self _ _
  · rw [if_neg hc]
    show (t / 2 ^ (8 * (L - 3))) <<< (8 * (L - 3)) ≤ t
    rw [Nat.shiftLeft_eq]
    exact Nat.div_mul_le_self _ _

theorem normalize_snd_pos (t : ℕ) (h0 : 0 < t) (h : t < 2 ^ 248) :
    0 < (PoW.normalize_target_to_bits (t : ℤ)).2 := by
  have hL := strip31 t h
  simp only [PoW.normalize_target_to_bits, Int.natAbs_ofNat, Nat.mod_eq_of_lt h]
  set L := PoW.stripLoop t 31 with hLdef
  have hL3 : 3 ≤ L := stripLoop_ge_three t 31 (by norm_num)
  have hBpos : 0 < t / 2 ^ (8 * (L - 3)) := by
    apply Nat.div_pos _ (by positivity)
    by_cases hs : sigBytes t ≤ 3
    · have hL3' : L = 3 := by rw [hL, Nat.max_eq_left hs]
      rw [hL3']
      simpa using h0
    · push_neg at hs
      have hLs : L = sigBytes t := by rw [hL, Nat.max_eq_right (by omega)]
      have h1 := sigBytes_le t (by omega)
      calc 2 ^ (8 * (L - 3)) ≤ 2 ^ (8 * (sigBytes t - 1)) := by
            apply Nat.pow_le_pow_right (by norm_num)
            omega
        _ ≤ t := h1
  by_cases hc : 0x800000 ≤ t / 2 ^ (8 * (L - 3))
  · rw [if_pos hc]
    show 0 < ((t / 2 ^ (8 * (L - 3))) >>> 8) <<< (8 * (L + 1 - 3))
    rw [Nat.shiftRight_eq_div_pow, Nat.shiftLeft_eq]
    exact Nat.mul_pos (Nat.div_pos (by omega) (by norm_num)) (by positivity)
  · rw [if_neg hc]
    show 0 < (t / 2 ^ (8 * (L - 3))) <<< (8 * (L - 3))
    rw [Nat.shiftLeft_eq]
    exact Nat.mul_pos hBpos (by positivity)

theorem bits_to_target_checked_eq (b : ℕ) :
    PoW.bits_to_target_checked b =
      if PoW.validBits b then .ok (PoW.bits_to_target b) else .error .assertFail := by
  simp only [PoW.bits_to_target_checked, PoW.bits_to_target, PoW.validBits]
  by_cases h1 : 3 ≤ (b >>> 24) &&& 0xff ∧ (b >>> 24) &&& 0xff ≤ 0x1e
  · rw [if_pos h1]
    by_cases h2 : 0x8000 ≤ b &&& 0xffffff ∧ b &&& 0xffffff ≤ 0x7fffff
    · rw [if_pos h2, if_pos ⟨h1, h2⟩]
    · rw [if_neg h2, if_neg (fun hcon => h2 hcon.2)]
  · rw [if_neg h1, if_neg (fun hcon => h1 hcon.1)]

theorem validBits_range (b : ℕ) (hv : PoW.validBits b) :
    0x8000 ≤ PoW.bits_to_target b ∧ PoW.bits_to_target b < 2 ^ 240 := by
  obtain ⟨⟨hN3, hN30⟩, hB1, hB2⟩ := hv
  rw [PoW.bits_to_target, Nat.shiftLeft_eq]
  constructor
  · calc (0x8000 : ℕ) = 0x8000 * 1 := by norm_num
      _ ≤ (b &&& 0xffffff) * 2 ^ (8 * ((b >>> 24 &&& 0xff) - 3)) :=
          Nat.mul_le_mul hB1 (Nat.one_le_two_pow)
  · calc (b &&& 0xffffff) * 2 ^ (8 * ((b >>> 24 &&& 0xff) - 3))
        ≤ 0x7fffff * 2 ^ (8 * 27) := by
          apply Nat.mul_le_mul hB2 (Nat.pow_le_pow_right (by norm_num) (by omega))
      _ < 2 ^ 240 := by norm_num

/-! ## C1: compact-target round trip -/

/-- C1: for every valid compact encoding `b` (a 32-bit value whose exponent
`(b >> 24) & 0xff` lies in `[0x03, 0x1e]` and whose mantissa `b & 0xffffff`
lies in `[0x8000, 0x7fffff]`), re-encoding the decoded target returns `b`
exactly: `target_to_bits(bits_to_target(b)) = b`. -/
theorem C1_compact_roundtrip (b : ℕ) (hb : b < 2 ^ 32) (hv : PoW.validBits b) :
    PoW.target_to_bits (PoW.bits_to_target b) = b := by
  obtain ⟨⟨hN3, hN30⟩, hB1, hB2⟩ := hv
  have hshr : b >>> 24 = b / 2 ^ 24 := Nat.shiftRight_eq_div_pow _ _
  have hdivlt : b / 2 ^ 24 < 2 ^ 8 := by omega
  have hN : (b >>> 24) &&& 0xff = b / 2 ^ 24 := by
    rw [hshr, show (0xff : ℕ) = 2 ^ 8 - 1 by norm_num, Nat.and_pow_two_sub_one_eq_mod,
      Nat.mod_eq_of_lt hdivlt]
  have hbase : b &&& 0xffffff = b % 2 ^ 24 := by
    rw [show (0xffffff : ℕ) = 2 ^ 24 - 1 by norm_num, Nat.and_pow_two_sub_one_eq_mod]
  rw [hN] at hN3 hN30
  rw [hbase] at hB1 hB2
  have hbt : PoW.bits_to_target b = b % 2 ^ 24 * 2 ^ (8 * (b / 2 ^ 24 - 3)) := by
    rw [PoW.bits_to_target, hN, hbase, Nat.shiftLeft_eq]
  rw [hbt, roundtrip_core _ _ hN3 hN30 hB1 hB2]
  omega

/-- C1 witness: the Litecoin pow limit `0x1e0ffff0` satisfies the hypotheses
and round-trips. -/
theorem C1_compact_roundtrip_witness :
    PoW.target_to_bits (PoW.bits_to_target 0x1e0ffff0) = 0x1e0ffff0 :=
  C1_compact_roundtrip 0x1e0ffff0 (by norm_num) (by decide)

/-! ## C7: encoder characterization -/

/-- C7 counterexample: for `t = 0x1234` (two significant bytes) the claim's
formula yields `2 << 24 | 0x1234 = 0x02001234`, but `target_to_bits` keeps a
minimum of 3 mantissa bytes and returns `0x03001234`. -/
theorem C7_counterexample :
    PoW.target_to_bits 0x1234 = 0x03001234 ∧ specEncode 0x1234 = 0x02001234 ∧
      PoW.target_to_bits 0x1234 ≠ specEncode 0x1234 := by
  refine ⟨by decide, by decide, by decide⟩

/-- C7 (amended): for every target `t` of up to 256 bits, `target_to_bits t`
equals `N << 24 | base` where `N = max(3, number of significant bytes of
t mod 2^248)` (the codec slices off the top byte of a 32-byte rendering and
never strips below 3 bytes) and `base` is the top 3 bytes of that window,
with `N` incremented and `base` shifted right by 8 whenever `base`'s high
bit is set. -/
theorem C7_encode_characterization (t n base : ℕ) (ht : t < 2 ^ 256)
    (hn : n = max 3 (sigBytes (t % 2 ^ 248)))
    (hbase : base = t % 2 ^ 248 / 2 ^ (8 * (n - 3))) :
    PoW.target_to_bits t =
      if 0x800000 ≤ base then (n + 1) * 2 ^ 24 + base / 2 ^ 8 else n * 2 ^ 24 + base :=
  target_to_bits_char t n base hn hbase

/-- C7 witness: a five-byte target with clear mantissa high bit. -/
theorem C7_encode_characterization_witness :
    PoW.target_to_bits 0x123456789a = 5 * 2 ^ 24 + 0x123456 := by
  have h := C7_encode_characterization 0x123456789a 5 0x123456 (by norm_num) (by decide) (by decide)
  rw [h, if_neg (by norm_num)]

/-! ## C8: algorithm registry constants -/

/-- C8 counterexample: `get_max_target(SCRYPT)` is NOT the full-width
constant `(2^256 >> 20) - 1`: it is the mantissa-truncated value obtained by
decoding the compact encoding of that constant. -/
theorem C8_counterexample :
    PoW_AUR.get_max_target .scrypt ≠ 2 ^ 256 >>> 20 - 1 ∧
      PoW_AUR.MAX_TARGET_ALGO_SCRYPT = 2 ^ 256 >>> 20 - 1 := by
  exact ⟨by decide, by decide⟩

/-- C8 (amended): the `MAX_TARGET_ALGO_*` table constants equal
`(2^256 >> k) - 1` for the chain-specific `k` (SHA256D 32, SCRYPT 20,
GROESTL 23, SKEIN 23, QUBIT 22); `get_pow_limit(algo)` is the compact
encoding (`target_to_bits`) of the table constant; and `get_max_target(algo)`
is `bits_to_target(get_pow_limit(algo))`, the mantissa-truncated
normalization of the constant — strictly below the constant itself. -/
theorem C8_registry :
    (PoW_AUR.MAX_TARGET_ALGO_SHA256D = 2 ^ 256 >>> 32 - 1 ∧
      PoW_AUR.MAX_TARGET_ALGO_SCRYPT = 2 ^ 256 >>> 20 - 1 ∧
      PoW_AUR.MAX_TARGET_ALGO_GROESTL = 2 ^ 256 >>> 23 - 1 ∧
      PoW_AUR.MAX_TARGET_ALGO_SKEIN = 2 ^ 256 >>> 23 - 1 ∧
      PoW_AUR.MAX_TARGET_ALGO_QUBIT = 2 ^ 256 >>> 22 - 1) ∧
    (PoW_AUR.get_pow_limit .sha256d = PoW.target_to_bits PoW_AUR.MAX_TARGET_ALGO_SHA256D ∧
      PoW_AUR.get_pow_limit .scrypt = PoW.target_to_bits PoW_AUR.MAX_TARGET_ALGO_SCRYPT ∧
      PoW_AUR.get_pow_limit .groestl = PoW.target_to_bits PoW_AUR.MAX_TARGET_ALGO_GROESTL ∧
      PoW_AUR.get_pow_limit .skein = PoW.target_to_bits PoW_AUR.MAX_TARGET_ALGO_SKEIN ∧
      PoW_AUR.get_pow_limit .qubit = PoW.target_to_bits PoW_AUR.MAX_TARGET_ALGO_QUBIT) ∧
    (PoW_AUR.get_max_target .sha256d = PoW.bits_to_target (PoW_AUR.get_pow_limit .sha256d) ∧
      PoW_AUR.get_max_target .scrypt = PoW.bits_to_target (PoW_AUR.get_pow_limit .scrypt) ∧
      PoW_AUR.get_max_target .groestl = PoW.bits_to_target (PoW_AUR.get_pow_limit .groestl) ∧
      PoW_AUR.get_max_target .skein = PoW.bits_to_target (PoW_AUR.get_pow_limit .skein) ∧
      PoW_AUR.get_max_target .qubit = PoW.bits_to_target (PoW_AUR.get_pow_limit .qubit)) ∧
    (PoW_AUR.get_pow_limit .sha256d = 0x1d00ffff ∧
      PoW_AUR.get_pow_limit .scrypt = 0x1e0fffff ∧
      PoW_AUR.get_pow_limit .groestl = 0x1e01ffff ∧
      PoW_AUR.get_pow_limit .skein = 0x1e01ffff ∧
      PoW_AUR.get_pow_limit .qubit = 0x1e03ffff) ∧
    PoW_AUR.get_max_target .scrypt < PoW_AUR.MAX_TARGET_ALGO_SCRYPT := by
  refine ⟨⟨by decide, by decide, by decide, by decide, by decide⟩,
    ⟨rfl, rfl, rfl, rfl, rfl⟩, ⟨rfl, rfl, rfl, rfl, rfl⟩,
    ⟨by decide, by decide, by decide, by decide, by decide⟩, by decide⟩

/-! ## C9: algorithm routing -/

/-- C9: every block version whose algorithm field (bits 9-11) holds the
GROESTL pattern `2 << 9` resolves to `ALGO_GROESTL`, and `pow_hash_header`
invokes the Groestl routine, never the SCRYPT default; every version whose
masked field matches no table entry resolves to `ALGO_SCRYPT`. -/
theorem C9_algo_routing (v : ℕ) :
    (v &&& (7 <<< 9) = 2 <<< 9 →
      PoW_AUR.get_algo v = .groestl ∧ PoW_AUR.pow_hash_header v = .groestlPow ∧
        PoW_AUR.pow_hash_header v ≠ .scryptPow) ∧
    (v &&& (7 <<< 9) ≠ 1 <<< 9 → v &&& (7 <<< 9) ≠ 2 <<< 9 → v &&& (7 <<< 9) ≠ 3 <<< 9 →
      v &&& (7 <<< 9) ≠ 4 <<< 9 → PoW_AUR.get_algo v = .scrypt) := by
  constructor
  · intro h
    have hga : PoW_AUR.get_algo v = .groestl := by
      simp only [PoW_AUR.get_algo]
      rw [h]
      decide
    refine ⟨hga, ?_, ?_⟩ <;> simp [PoW_AUR.pow_hash_header, hga]
  · intro h1 h2 h3 h4
    simp only [PoW_AUR.get_algo]
    rw [if_neg h1, if_neg h2, if_neg h3, if_neg h4]

/-- C9 witness: version `1026 = 2 | (2 << 9)` routes to Groestl; version `99`
(algorithm field `0`) falls back to SCRYPT. -/
theorem C9_algo_routing_witness :
    PoW_AUR.get_algo 1026 = .groestl ∧ PoW_AUR.pow_hash_header 1026 = .groestlPow ∧
      PoW_AUR.get_algo 99 = .scrypt :=
  ⟨((C9_algo_routing 1026).1 (by decide)).1, ((C9_algo_routing 1026).1 (by decide)).2.1,
    (C9_algo_routing 99).2 (by decide) (by decide) (by decide) (by decide)⟩

/-! ## C5: difficulty-mode dispatch -/

/-- C5: the multi-algorithm chain's `get_target` dispatches by the fork
schedule — heights `≤ 5400` to the legacy linear variant, heights in
`(5400, 225000]` to KGW, heights above `225000` to the multi-algorithm
policy — and the multi-algorithm policy returns exactly
`get_target_original` (stub delegation). -/
theorem C5_mode_dispatch (height : ℤ) (store : Store) (chain : Chain) (horizon : ℕ → ℚ) :
    (height ≤ 5400 →
      PoW_AUR.get_target height store chain horizon =
        PoW_AUR.get_target_original height store chain) ∧
    (5400 < height → height ≤ 225000 →
      PoW_AUR.get_target height store chain horizon =
        PoW_AUR.get_target_KGW height store chain horizon) ∧
    (225000 < height →
      PoW_AUR.get_target height store chain horizon =
        PoW_AUR.get_target_Multi height store chain) ∧
    PoW_AUR.get_target_Multi height store chain =
      PoW_AUR.get_target_original height store chain := by
  refine ⟨?_, ?_, ?_, rfl⟩
  · intro h
    simp [PoW_AUR.get_target, PoW_AUR.multiAlgoDiffChangeTarget, h]
  · intro h1 h2
    have h1' : ¬ height ≤ 5400 := not_le.mpr h1
    simp [PoW_AUR.get_target, PoW_AUR.multiAlgoDiffChangeTarget, h1', h2]
  · intro h3
    have h1' : ¬ height ≤ 5400 := not_le.mpr (by omega)
    have h2' : ¬ height ≤ 225000 := not_le.mpr h3
    simp [PoW_AUR.get_target, PoW_AUR.multiAlgoDiffChangeTarget, h1', h2']

/-- C5 witness: concrete heights in each band. -/
theorem C5_mode_dispatch_witness :
    PoW_AUR.get_target 141 storeF (some []) horTwo =
        PoW_AUR.get_target_original 141 storeF (some []) ∧
      PoW_AUR.get_target 6000 storeE (some []) horTwo =
        PoW_AUR.get_target_KGW 6000 storeE (some []) horTwo ∧
      PoW_AUR.get_target 300000 storeE (some []) horTwo =
        PoW_AUR.get_target_Multi 300000 storeE (some []) :=
  ⟨(C5_mode_dispatch 141 storeF (some []) horTwo).1 (by norm_num),
    (C5_mode_dispatch 6000 storeE (some []) horTwo).2.1 (by norm_num) (by norm_num),
    (C5_mode_dispatch 300000 storeE (some []) horTwo).2.2.1 (by norm_num)⟩


/-! ## C2: classic linear retarget (Python 2.7 float defect) -/

/-- C2 (code-bug evidence): at a perfectly ordinary input (heights 0 and 9
present, actual timespan `151200 = target_timespan/2`, inside the clamp
band) the classic linear policy crashes with the float-format `TypeError`
instead of returning `normalize(min(max_target, target*timespan/302400))`,
because `nTargetTimeSpan = 3.5*24*60*60` is a float; the function completes
only when the float quotient reaches `max_target` (second conjunct,
`storeB`: actual timespan clamped at the 4x ceiling). -/
theorem C2_float_crash :
    PoW.get_target 10 storeA (some []) = .error .floatFormat ∧
      PoW.get_target 10 storeB (some []) = .ok (0x1e0ffff0, PoW.get_max_target) := by
  have hlookA : PoW.lookup_last storeA (some []) 9 =
      .ok (some ⟨0x1e0ffff0, 151200, 9⟩) := by decide
  have hlookB : PoW.lookup_last storeB (some []) 9 = .ok (some hdr9) := by decide
  have hdec : PoW.bits_to_target_checked 0x1e0ffff0 = .ok (0x0ffff0 * 2 ^ 216) := by decide
  have hmax : PoW.get_max_target = 0x0ffff0 * 2 ^ 216 := by decide
  constructor
  · norm_num [PoW.get_target, storeA, hdr0, hlookA, hdec, hmax, max_def, min_def]
  · norm_num [PoW.get_target, storeB, hdr0, hdr9, hlookB, hdec, hmax, max_def, min_def]
    decide

/-! ## C4: header-lookup structure of the policies -/

/-- C4 counterexample: in the classic linear policy the first-header lookup
does NOT fall back to the reorg buffer.  With the last header (height 9) in
the store and the first header (height 0) only in the buffer, the policy
crashes with the `NoneType` attribute error instead of using the buffered
header. -/
theorem C4_counterexample :
    hdr0.block_height = 0 ∧ PoW.get_target 10 storeC (some [hdr0]) = .error .noneAttr := by
  exact ⟨rfl, by decide⟩

/-- C4 (amended): the LAST-header lookups fall back to the reorg buffer in
the classic linear policy (parts a1/a2: store hit wins, otherwise the buffer
is scanned) and absence from both sources is a fatal assert (part b); but
the FIRST-header lookup of the classic policy queries only the store — a
miss crashes with the `NoneType` error even when the buffer holds the header
(part c); and in the legacy variant the last-header lookup is invoked
without the buffer (`self.get_header(last_height)`), so a store miss
iterates `None` instead of falling back (part d).  The shared helper
`get_header` itself does query store first, then buffer (part e). -/
theorem C4_lookup_structure :
    (∀ (store : Store) (chain : Chain) (h : ℤ) (l : Header), store h = some l →
      PoW.lookup_last store chain h = .ok (some l)) ∧
    (∀ (store : Store) (h : ℤ) (l : Header), store h = none → l.block_height = h →
      PoW.lookup_last store (some [l]) h = .ok (some l)) ∧
    (∀ (height : ℤ) (store : Store), height ≠ 0 → store (height - 1) = none →
      PoW.get_target height store (some []) = .error .assertFail) ∧
    (∀ (height : ℤ) (store : Store) (chain : List Header) (last : Header),
      2 ≤ height → store (height - 1) = some last → PoW.validBits last.bits →
      store (if (2016 : ℤ) < height - 1 then height - 1 - 2016 else 0) = none →
      PoW.get_target height store (some chain) = .error .noneAttr) ∧
    (∀ (height : ℤ) (store : Store) (chain : Chain), 135 ≤ height →
      store (height - 1) = none →
      PoW_AUR.get_target_original height store chain = .error .noneIter) ∧
    (∀ (store : Store) (chain : List Header) (h : ℤ), store h = none →
      PoW_AUR.get_header store (some chain) h =
        .ok (chain.find? (fun hh => decide (hh.block_height = h)))) := by
  refine ⟨?_, ?_, ?_, ?_, ?_, ?_⟩
  · intro store chain h l hit
    simp [PoW.lookup_last, hit]
  · intro store h l hmiss hl
    simp [PoW.lookup_last, hmiss, List.foldl, hl]
  · intro height store h0 hmiss
    have hlast : PoW.lookup_last store (some []) (height - 1) = .ok none := by
      simp [PoW.lookup_last, hmiss]
    simp [PoW.get_target, h0, hlast]
  · intro height store chain last h2 hlast hv hfirst
    have h0 : ¬height = 0 := by omega
    have hlook : PoW.lookup_last store (some chain) (height - 1) = .ok (some last) := by
      simp [PoW.lookup_last, hlast]
    simp [PoW.get_target, h0, hlook, bits_to_target_checked_eq, hv, hfirst]
  · intro height store chain h135 hmiss
    have h0 : ¬height = 0 := by omega
    have h1 : ¬height < 135 := by omega
    simp [PoW_AUR.get_target_original, PoW_AUR.get_header, h0, h1, hmiss]
  · intro store chain h hmiss
    simp [PoW_AUR.get_header, hmiss]

/-- C4 witness: concrete instantiations of all six parts. -/
theorem C4_lookup_structure_witness :
    PoW.lookup_last storeC (some []) 9 = .ok (some ⟨0x1e0ffff0, 1000, 9⟩) ∧
      PoW.lookup_last storeD (some [hdr9]) 9 = .ok (some hdr9) ∧
      PoW.get_target 3 storeE (some []) = .error .assertFail ∧
      PoW.get_target 10 storeC (some [hdr0]) = .error .noneAttr ∧
      PoW_AUR.get_target_original 141 storeE (some [hdr0]) = .error .noneIter ∧
      PoW_AUR.get_header storeE (some [hdr0]) 0 = .ok (some hdr0) := by
  refine ⟨C4_lookup_structure.1 storeC (some []) 9 _ (by decide),
    C4_lookup_structure.2.1 storeD 9 hdr9 (by decide) (by decide),
    C4_lookup_structure.2.2.1 3 storeE (by norm_num) (by decide),
    C4_lookup_structure.2.2.2.1 10 storeC [hdr0] ⟨0x1e0ffff0, 1000, 9⟩ (by norm_num)
      (by decide) (by decide) (by decide),
    C4_lookup_structure.2.2.2.2.1 141 storeE (some [hdr0]) (by norm_num) (by decide),
    ?_⟩
  have h := C4_lookup_structure.2.2.2.2.2 storeE [hdr0] 0 (by decide)
  simpa using h

/-! ## C10: KGW adjustment-ratio guard -/

/-- C10: in every iteration of the KGW walk, the elapsed time is clamped to
be non-negative, and the adjustment ratio equals
`target_seconds / actual_seconds` exactly when both are nonzero, staying at
its default `1.0` otherwise — so the division is never performed with a zero
or negative denominator. -/
theorem C10_ratio_guard (store : Store) (chain : Chain) (lastHdr : Option Header)
    (spacing : ℤ) (pastMin : ℕ) (horizon : ℕ → ℚ) (i : ℕ)
    (st st' : PoW_AUR.KGWState) (brk : Bool)
    (hok : PoW_AUR.kgwBody store chain lastHdr spacing pastMin horizon i st = .ok (st', brk)) :
    0 ≤ st'.actual ∧
      (st'.actual ≠ 0 ∧ st'.tsec ≠ 0 → st'.rAdj = (st'.tsec : ℚ) / (st'.actual : ℚ)) ∧
      ((st'.actual = 0 ∨ st'.tsec = 0) → st'.rAdj = 1) := by
  simp only [PoW_AUR.kgwBody] at hok
  repeat' split at hok
  all_goals try exact Except.noConfusion hok
  all_goals
    simp only [Except.ok.injEq, Prod.mk.injEq] at hok
  all_goals obtain ⟨rfl, rfl⟩ := hok
  all_goals refine ⟨by dsimp only; omega, ?_, ?_⟩ <;> intro hc <;> dsimp only at hc ⊢ <;>
    first
      | rfl
      | (exfalso; tauto)

/-- C10 witness: the first iteration of a concrete walk (zero elapsed time,
so the ratio stays at its default 1). -/
theorem C10_ratio_guard_witness :
    (0 : ℤ) ≤ (0 : ℤ) ∧
      ((0 : ℤ) ≠ 0 ∧ (300 : ℤ) ≠ 0 → (1 : ℚ) = ((300 : ℤ) : ℚ) / ((0 : ℤ) : ℚ)) ∧
      ((0 : ℤ) = 0 ∨ (300 : ℤ) = 0 → (1 : ℚ) = 1) := by
  have hget : PoW_AUR.get_header storeG (some []) 9 =
      .ok (some ⟨0x1e0ffff0, 1000, 9⟩) := by decide
  have hdec : PoW.bits_to_target_checked 0x1e0ffff0 = .ok (0x0ffff0 * 2 ^ 216) := by decide
  have hok : PoW_AUR.kgwBody storeG (some []) (some ⟨0x1e0ffff0, 1000, 9⟩) 300 1 horTwo 1
      ⟨0, 9, 0, 0, 0, 0, 1⟩ =
      .ok (⟨1, 8, ((0x0ffff0 * 2 ^ 216 : ℕ) : ℤ), ((0x0ffff0 * 2 ^ 216 : ℕ) : ℤ), 0, 300, 1⟩,
        false) := by
    norm_num [PoW_AUR.kgwBody, hget, hdec, horTwo]
  exact C10_ratio_guard storeG (some []) (some ⟨0x1e0ffff0, 1000, 9⟩) 300 1 horTwo 1
    ⟨0, 9, 0, 0, 0, 0, 1⟩
    ⟨1, 8, ((0x0ffff0 * 2 ^ 216 : ℕ) : ℤ), ((0x0ffff0 * 2 ^ 216 : ℕ) : ℤ), 0, 300, 1⟩
    false hok

/-! ## KGW walk: loop characterization -/

theorem checked_ok (b v : ℕ) (h : PoW.bits_to_target_checked b = .ok v) :
    v = PoW.bits_to_target b := by
  rw [bits_to_target_checked_eq] at h
  split at h
  · exact (Except.ok.inj h).symm
  · exact Except.noConfusion h

theorem kgwAvg_one (t : ℕ → ℤ) : kgwAvg t 1 = t 1 := rfl

theorem kgwAvg_two_step (t : ℕ → ℤ) (n : ℕ) :
    kgwAvg t (n + 2) = (t (n + 2) - kgwAvg t (n + 1)).fdiv ((n : ℤ) + 2) + kgwAvg t (n + 1) :=
  rfl

theorem kgwAvg_step (t : ℕ → ℤ) (m : ℕ) (h2 : 2 ≤ m) :
    kgwAvg t m = (t m - kgwAvg t (m - 1)).fdiv (m : ℤ) + kgwAvg t (m - 1) := by
  obtain ⟨n, rfl⟩ : ∃ n, m = n + 2 := ⟨m - 2, by omega⟩
  rw [kgwAvg_two_step]
  norm_num

theorem kgwBody_spec (store : Store) (chain : Chain) (lh : Header) (spacing : ℤ)
    (pastMin : ℕ) (horizon : ℕ → ℚ) (height : ℤ) (i : ℕ) (st st' : PoW_AUR.KGWState)
    (brk : Bool) (hi : 1 ≤ i) (hmass : st.mass = i - 1)
    (hreading : st.reading = height - (i : ℤ))
    (havg : st.avg = kgwAvg (kgwTargetAt store chain height) (i - 1))
    (hprev : st.avgPrev = st.avg)
    (hok : PoW_AUR.kgwBody store chain (some lh) spacing pastMin horizon i st = .ok (st', brk)) :
    st'.mass = i ∧
      (brk = false → st'.reading = height - ((i : ℤ) + 1)) ∧
      st'.avg = kgwAvg (kgwTargetAt store chain height) i ∧
      st'.avgPrev = st'.avg ∧
      st'.actual = kgwActualAt lh.timestamp store chain height i ∧
      st'.tsec = spacing * (i : ℤ) := by
  cases hlook : PoW_AUR.get_header store chain st.reading with
  | error e => simp [PoW_AUR.kgwBody, hlook] at hok
  | ok o =>
    cases o with
    | none => simp [PoW_AUR.kgwBody, hlook] at hok
    | some rh =>
      cases hdec : PoW.bits_to_target_checked rh.bits with
      | error e => simp [PoW_AUR.kgwBody, hlook, hdec] at hok
      | ok rt =>
        have hrt : rt = PoW.bits_to_target rh.bits := checked_ok _ _ hdec
        have hhdr : kgwHdrAt store chain height i = some rh := by
          simp only [kgwHdrAt, ← hreading, hlook]
        have htg : kgwTargetAt store chain height i = (rt : ℤ) := by
          simp only [kgwTargetAt, hhdr, hrt]
        have hts : kgwReadTs store chain height i = rh.timestamp := by
          simp only [kgwReadTs, hhdr]
        have hact : kgwActualAt lh.timestamp store chain height i =
            if lh.timestamp - rh.timestamp < 0 then 0
            else lh.timestamp - rh.timestamp := by
          simp only [kgwActualAt, hts, if_neg (show ¬i = 0 by omega)]
        have havgeq :
            (if i = 1 then (rt : ℤ) else ((rt : ℤ) - st.avgPrev).fdiv (i : ℤ) + st.avgPrev) =
              kgwAvg (kgwTargetAt store chain height) i := by
          by_cases h1 : i = 1
          · subst h1
            rw [if_pos rfl, kgwAvg_one, htg]
          · rw [if_neg h1, kgwAvg_step _ i (by omega), htg, hprev, havg]
        simp only [PoW_AUR.kgwBody, hlook, hdec] at hok
        repeat' split at hok
        all_goals simp only [Except.ok.injEq, Prod.mk.injEq] at hok
        all_goals obtain ⟨rfl, rfl⟩ := hok
        all_goals dsimp only
        all_goals refine ⟨by omega, ?_, ?_, rfl, ?_, ?_⟩
        all_goals try
      first
        | (intro hb
           exact Bool.noConfusion hb)
        | (intro hb
           rw [hreading]
           ring)
        | (rw [← havgeq]
           split <;> first | rfl | omega)
        | (rw [hact]
           split <;> omega)
        | (have h6 : ((st.mass + 1 : ℕ) : ℤ) = (i : ℤ) := by omega
           rw [h6])

theorem kgwLoop_spec (store : Store) (chain : Chain) (lh : Header) (spacing : ℤ)
    (pastMin : ℕ) (horizon : ℕ → ℚ) (pastMax : ℕ) (height : ℤ) :
    ∀ (fuel i : ℕ) (st st' : PoW_AUR.KGWState),
      PoW_AUR.kgwLoop store chain (some lh) spacing pastMin horizon pastMax fuel i st =
        .ok st' →
      1 ≤ i →
      st.mass = i - 1 →
      st.reading = height - (i : ℤ) →
      st.avg = kgwAvg (kgwTargetAt store chain height) (i - 1) →
      st.avgPrev = st.avg →
      st.actual = kgwActualAt lh.timestamp store chain height (i - 1) →
      st.tsec = spacing * ((i - 1 : ℕ) : ℤ) →
      ∃ m : ℕ, i - 1 ≤ m ∧ m ≤ i - 1 + fuel ∧
        st'.mass = m ∧
        st'.avg = kgwAvg (kgwTargetAt store chain height) m ∧
        st'.actual = kgwActualAt lh.timestamp store chain height m ∧
        st'.tsec = spacing * (m : ℤ) ∧
        (0 < fuel → ¬(0 < pastMax ∧ pastMax < i) → i ≤ m) := by
  intro fuel
  induction fuel with
  | zero =>
    intro i st st' hok hi hmass hreading havg hprev hactual htsec
    have hst : st = st' := Except.ok.inj hok
    subst hst
    exact ⟨i - 1, le_rfl, by omega, hmass, havg, hactual, by rw [htsec], by omega⟩
  | succ fuel ih =>
    intro i st st' hok hi hmass hreading havg hprev hactual htsec
    simp only [PoW_AUR.kgwLoop] at hok
    by_cases hguard : 0 < pastMax ∧ pastMax < i
    · rw [if_pos hguard] at hok
      have hst : st = st' := Except.ok.inj hok
      subst hst
      exact ⟨i - 1, le_rfl, by omega, hmass, havg, hactual, by rw [htsec],
        fun _ hng => absurd hguard hng⟩
    · rw [if_neg hguard] at hok
      cases hbody : PoW_AUR.kgwBody store chain (some lh) spacing pastMin horizon i st with
      | error e => rw [hbody] at hok; exact Except.noConfusion hok
      | ok pr =>
        rw [hbody] at hok
        obtain ⟨st2, brk⟩ := pr
        obtain ⟨hm2, hr2, ha2, hp2, hac2, hts2⟩ :=
          kgwBody_spec store chain lh spacing pastMin horizon height i st st2 brk hi hmass
            hreading havg hprev hbody
        cases brk with
        | true =>
          have hst : st2 = st' := Except.ok.inj hok
          subst hst
          exact ⟨i, by omega, by omega, hm2, ha2, hac2, hts2, fun _ _ => le_rfl⟩
        | false =>
          have hrec : PoW_AUR.kgwLoop store chain (some lh) spacing pastMin horizon pastMax
              fuel (i + 1) st2 = .ok st' := hok
          obtain ⟨m, hb1, hb2, hb3, hb4, hb5, hb6, hb7⟩ :=
            ih (i + 1) st2 st' hrec (by omega)
              (by rw [hm2]; omega)
              (by rw [hr2 rfl]; push_cast; ring)
              (by rw [ha2]; simp)
              hp2
              (by rw [hac2]; simp)
              (by rw [hts2]; simp)
          exact ⟨m, by omega, by omega, hb3, hb4, hb5, hb6, fun _ _ => by omega⟩

theorem kgwBody_none_fail (store : Store) (chain : Chain) (spacing : ℤ) (pastMin : ℕ)
    (horizon : ℕ → ℚ) (i : ℕ) (st : PoW_AUR.KGWState) (pr : PoW_AUR.KGWState × Bool)
    (h : PoW_AUR.kgwBody store chain none spacing pastMin horizon i st = .ok pr) : False := by
  simp only [PoW_AUR.kgwBody] at h
  repeat' split at h
  all_goals exact Except.noConfusion h

theorem kgwLoop_none_fail (store : Store) (chain : Chain) (spacing : ℤ)
    (pastMin pastMax : ℕ) (horizon : ℕ → ℚ) (fuel i : ℕ) (st st' : PoW_AUR.KGWState)
    (hfuel : 1 ≤ fuel) (hg : ¬(0 < pastMax ∧ pastMax < i))
    (h : PoW_AUR.kgwLoop store chain none spacing pastMin horizon pastMax fuel i st =
      .ok st') : False := by
  obtain ⟨f, rfl⟩ : ∃ f, fuel = f + 1 := ⟨fuel - 1, by omega⟩
  simp only [PoW_AUR.kgwLoop] at h
  rw [if_neg hg] at h
  cases hbody : PoW_AUR.kgwBody store chain none spacing pastMin horizon i st with
  | error e => rw [hbody] at h; exact Except.noConfusion h
  | ok pr => exact kgwBody_none_fail store chain spacing pastMin horizon i st pr hbody

theorem kimoto_spec (height : ℤ) (store : Store) (chain : Chain) (spacing : ℤ)
    (pastMin pastMax : ℕ) (horizon : ℕ → ℚ) (r : ℕ × ℕ)
    (h0 : ¬(height - 1 = 0 ∨ height - 1 < (pastMin : ℤ)))
    (hmax : 1 ≤ pastMax)
    (hok : PoW_AUR.kimotoGravityWell height store chain spacing pastMin pastMax horizon =
      .ok r) :
    ∃ (m : ℕ) (lh : Header),
      PoW_AUR.get_header store chain (height - 1) = .ok (some lh) ∧
      1 ≤ m ∧ m ≤ pastMax ∧
      r = PoW.normalize_target_to_bits
        (let avg := kgwAvg (kgwTargetAt store chain height) m
         let actual := kgwActualAt lh.timestamp store chain height m
         let tsec := spacing * (m : ℤ)
         let scaled := if actual ≠ 0 ∧ tsec ≠ 0 then (avg * actual).fdiv tsec else avg
         if (PoW_AUR.get_max_target .scrypt : ℤ) < scaled then
           (PoW_AUR.get_max_target .scrypt : ℤ)
         else scaled) := by
  simp only [PoW_AUR.kimotoGravityWell] at hok
  rw [if_neg h0] at hok
  cases hlook : PoW_AUR.get_header store chain (height - 1) with
  | error e =>
    simp only [hlook] at hok
    exact Except.noConfusion hok
  | ok lastHdr =>
    simp only [hlook] at hok
    cases lastHdr with
    | none =>
      exfalso
      cases hloop : PoW_AUR.kgwLoop store chain none spacing pastMin horizon pastMax
          pastMax 1 ⟨0, height - 1, 0, 0, 0, 0, 1⟩ with
      | error e =>
        simp only [hloop] at hok
        exact Except.noConfusion hok
      | ok stf =>
        exact kgwLoop_none_fail store chain spacing pastMin pastMax horizon pastMax 1 _ stf
          hmax (by omega) hloop
    | some lh =>
      cases hloop : PoW_AUR.kgwLoop store chain (some lh) spacing pastMin horizon pastMax
          pastMax 1 ⟨0, height - 1, 0, 0, 0, 0, 1⟩ with
      | error e =>
        simp only [hloop] at hok
        exact Except.noConfusion hok
      | ok stf =>
        simp only [hloop] at hok
        have hr := Except.ok.inj hok
        obtain ⟨m, h1, h2, h3, h4, h5, h6, h7⟩ :=
          kgwLoop_spec store chain lh spacing pastMin horizon pastMax height pastMax 1
            ⟨0, height - 1, 0, 0, 0, 0, 1⟩ stf hloop le_rfl rfl (by norm_num) rfl rfl rfl
            (by norm_num)
        refine ⟨m, lh, rfl, by omega, by omega, ?_⟩
        rw [← hr]
        simp only [h4, h5, h6]

theorem avgStep_nonneg (a tv : ℤ) (i : ℕ) (ha : 0 ≤ a) (htv : 0 ≤ tv) (hi : 1 ≤ i) :
    0 ≤ (tv - a).fdiv (i : ℤ) + a := by
  have hipos : (0 : ℤ) < (i : ℤ) := by exact_mod_cast hi
  rw [Int.fdiv_eq_ediv _ (by positivity)]
  rcases le_or_lt a tv with hle | hlt
  · have h1 : 0 ≤ (tv - a) / (i : ℤ) := Int.ediv_nonneg (by omega) (by positivity)
    omega
  · have h1 : tv - a ≤ (tv - a) / (i : ℤ) := by
      rw [Int.le_ediv_iff_mul_le hipos]
      nlinarith
    omega

theorem kgwAvg_nonneg (t : ℕ → ℤ) (ht : ∀ j, 0 ≤ t j) : ∀ m, 0 ≤ kgwAvg t m
  | 0 => le_rfl
  | 1 => ht 1
  | m + 2 => by
    rw [kgwAvg_two_step]
    exact avgStep_nonneg (kgwAvg t (m + 1)) (t (m + 2)) (m + 2)
      (kgwAvg_nonneg t ht (m + 1)) (ht (m + 2)) (by omega) |>.trans_eq (by push_cast; ring_nf)

theorem kgwTargetAt_nonneg (store : Store) (chain : Chain) (height : ℤ) (m : ℕ) :
    0 ≤ kgwTargetAt store chain height m := by
  rw [kgwTargetAt]
  cases kgwHdrAt store chain height m with
  | none => exact le_rfl
  | some hh => exact Int.ofNat_nonneg _

theorem kgwActualAt_nonneg (lastTs : ℤ) (store : Store) (chain : Chain) (height : ℤ)
    (m : ℕ) : 0 ≤ kgwActualAt lastTs store chain height m := by
  simp only [kgwActualAt]
  split
  · exact le_rfl
  · split <;> omega

theorem kgwLoop_zero (store : Store) (chain : Chain) (lastHdr : Option Header) (spacing : ℤ)
    (pastMin : ℕ) (horizon : ℕ → ℚ) (pastMax : ℕ) (i : ℕ) (st : PoW_AUR.KGWState) :
    PoW_AUR.kgwLoop store chain lastHdr spacing pastMin horizon pastMax 0 i st = .ok st :=
  rfl

theorem kgwLoop_succ (store : Store) (chain : Chain) (lastHdr : Option Header) (spacing : ℤ)
    (pastMin : ℕ) (horizon : ℕ → ℚ) (pastMax : ℕ) (fuel i : ℕ) (st : PoW_AUR.KGWState) :
    PoW_AUR.kgwLoop store chain lastHdr spacing pastMin horizon pastMax (fuel + 1) i st =
      if 0 < pastMax ∧ pastMax < i then .ok st
      else
        match PoW_AUR.kgwBody store chain lastHdr spacing pastMin horizon i st with
        | .error e => .error e
        | .ok (st', true) => .ok st'
        | .ok (st', false) =>
          PoW_AUR.kgwLoop store chain lastHdr spacing pastMin horizon pastMax fuel (i + 1) st' :=
  rfl

theorem get_header_store_of_ok (store : Store) (z : ℤ) (o : Option Header)
    (h : PoW_AUR.get_header store none z = .ok o) : store z = o := by
  rw [PoW_AUR.get_header] at h
  cases hs : store z with
  | some l => rw [hs] at h; exact Except.ok.inj h
  | none => rw [hs] at h; exact Except.noConfusion h

theorem checked_valid (b v : ℕ) (h : PoW.bits_to_target_checked b = .ok v) :
    PoW.validBits b := by
  rw [bits_to_target_checked_eq] at h
  split at h
  · assumption
  · exact Except.noConfusion h

/-! ## C3: KGW running average and final scaling -/

/-- C3: in `kimotoGravityWell` (on the walk path: the early pow-limit return
is excluded by the hypotheses, and at least one iteration exists), the
running difficulty average satisfies `avg_1 = target_1` and
`avg_i = avg_(i-1) + (target_i - avg_(i-1)) / i` for `i ≥ 2` (first two
conjuncts; `kgwAvg` is that recurrence), and the returned pair is the
normalization of `difficulty_average * actual_seconds / target_seconds` over
the walked window of `m` iterations — the scaling applied only when both
are nonzero — clamped from above by `max_target()`. -/
theorem C3_kgw_average_scaling (height : ℤ) (store : Store) (chain : Chain) (spacing : ℤ)
    (pastMin pastMax : ℕ) (horizon : ℕ → ℚ) (r : ℕ × ℕ)
    (h0 : ¬(height - 1 = 0 ∨ height - 1 < (pastMin : ℤ))) (hmax : 1 ≤ pastMax)
    (hok : PoW_AUR.kimotoGravityWell height store chain spacing pastMin pastMax horizon =
      .ok r) :
    (∀ t : ℕ → ℤ, kgwAvg t 1 = t 1) ∧
    (∀ (t : ℕ → ℤ) (i : ℕ), 2 ≤ i →
      kgwAvg t i = kgwAvg t (i - 1) + (t i - kgwAvg t (i - 1)).fdiv (i : ℤ)) ∧
    ∃ (m : ℕ) (lh : Header),
      PoW_AUR.get_header store chain (height - 1) = .ok (some lh) ∧
      1 ≤ m ∧ m ≤ pastMax ∧
      r = PoW.normalize_target_to_bits
        (let avg := kgwAvg (kgwTargetAt store chain height) m
         let actual := kgwActualAt lh.timestamp store chain height m
         let tsec := spacing * (m : ℤ)
         let scaled := if actual ≠ 0 ∧ tsec ≠ 0 then (avg * actual).fdiv tsec else avg
         if (PoW_AUR.get_max_target .scrypt : ℤ) < scaled then
           (PoW_AUR.get_max_target .scrypt : ℤ)
         else scaled) :=
  ⟨fun t => kgwAvg_one t,
   fun t i h2 => by rw [kgwAvg_step t i h2]; ring,
   kimoto_spec height store chain spacing pastMin pastMax horizon r h0 hmax hok⟩

/-- C3 witness: a one-iteration walk (heights 9 over store `storeG`, spacing
parameter 0 so the final scaling guard is exercised on its zero branch). -/
theorem C3_kgw_average_scaling_witness :
    (∀ t : ℕ → ℤ, kgwAvg t 1 = t 1) ∧
    (∀ (t : ℕ → ℤ) (i : ℕ), 2 ≤ i →
      kgwAvg t i = kgwAvg t (i - 1) + (t i - kgwAvg t (i - 1)).fdiv (i : ℤ)) ∧
    ∃ (m : ℕ) (lh : Header),
      PoW_AUR.get_header storeG (some []) ((10 : ℤ) - 1) = .ok (some lh) ∧
      1 ≤ m ∧ m ≤ 1 ∧
      (0x1e0ffff0, 0x0ffff0 * 2 ^ 216) = PoW.normalize_target_to_bits
        (let avg := kgwAvg (kgwTargetAt storeG (some []) 10) m
         let actual := kgwActualAt lh.timestamp storeG (some []) 10 m
         let tsec := (0 : ℤ) * (m : ℤ)
         let scaled := if actual ≠ 0 ∧ tsec ≠ 0 then (avg * actual).fdiv tsec else avg
         if (PoW_AUR.get_max_target .scrypt : ℤ) < scaled then
           (PoW_AUR.get_max_target .scrypt : ℤ)
         else scaled) := by
  have h1 : PoW_AUR.get_header storeG (some []) 9 =
      .ok (some ⟨0x1e0ffff0, 1000, 9⟩) := by decide
  have hdec : PoW.bits_to_target_checked 0x1e0ffff0 = .ok (0x0ffff0 * 2 ^ 216) := by decide
  have hbody1 : PoW_AUR.kgwBody storeG (some []) (some ⟨0x1e0ffff0, 1000, 9⟩) 0 1 horTwo 1
      ⟨0, 9, 0, 0, 0, 0, 1⟩ =
      .ok (⟨1, 8, ((0x0ffff0 * 2 ^ 216 : ℕ) : ℤ), ((0x0ffff0 * 2 ^ 216 : ℕ) : ℤ), 0, 0, 1⟩,
        false) := by
    norm_num [PoW_AUR.kgwBody, h1, hdec, horTwo]
  have hloop : PoW_AUR.kgwLoop storeG (some []) (some ⟨0x1e0ffff0, 1000, 9⟩) 0 1 horTwo 1
      1 1 ⟨0, 9, 0, 0, 0, 0, 1⟩ =
      .ok ⟨1, 8, ((0x0ffff0 * 2 ^ 216 : ℕ) : ℤ), ((0x0ffff0 * 2 ^ 216 : ℕ) : ℤ), 0, 0, 1⟩ := by
    show PoW_AUR.kgwLoop storeG (some []) (some ⟨0x1e0ffff0, 1000, 9⟩) 0 1 horTwo 1
      (0 + 1) 1 ⟨0, 9, 0, 0, 0, 0, 1⟩ = _
    rw [kgwLoop_succ, if_neg (by norm_num)]
    simp only [hbody1]
    exact kgwLoop_zero _ _ _ _ _ _ _ _ _
  have hm : PoW_AUR.get_max_target .scrypt = 0x0fffff * 2 ^ 216 := by decide
  have hok : PoW_AUR.kimotoGravityWell 10 storeG (some []) 0 1 1 horTwo =
      .ok (0x1e0ffff0, 0x0ffff0 * 2 ^ 216) := by
    norm_num [PoW_AUR.kimotoGravityWell, h1, hloop, hm]
    decide
  exact C3_kgw_average_scaling 10 storeG (some []) 0 1 1 horTwo
    (0x1e0ffff0, 0x0ffff0 * 2 ^ 216) (by norm_num) le_rfl hok

/-! ## C6: output bounds of the retarget policies -/

theorem normalize_snd_le_of (z : ℤ) (bound : ℕ) (h0 : 0 ≤ z) (hle : z ≤ (bound : ℤ))
    (hb : bound < 2 ^ 248) : (PoW.normalize_target_to_bits z).2 ≤ bound := by
  obtain ⟨n, rfl⟩ : ∃ n : ℕ, z = (n : ℤ) := ⟨z.toNat, (Int.toNat_of_nonneg h0).symm⟩
  have hn : n ≤ bound := by exact_mod_cast hle
  exact le_trans (normalize_snd_le n (by omega)) hn

theorem normalize_snd_pos_of (z : ℤ) (h0 : 1 ≤ z) (h1 : z < 2 ^ 248) :
    0 < (PoW.normalize_target_to_bits z).2 := by
  obtain ⟨n, rfl⟩ : ∃ n : ℕ, z = (n : ℤ) := ⟨z.toNat, (Int.toNat_of_nonneg (by omega)).symm⟩
  exact normalize_snd_pos n (by exact_mod_cast h0) (by exact_mod_cast h1)

theorem clamp_range (maxv scaled : ℤ) (hm : 0 ≤ maxv) (hs : 0 ≤ scaled) :
    0 ≤ (if maxv < scaled then maxv else scaled) ∧
      (if maxv < scaled then maxv else scaled) ≤ maxv := by
  split <;> omega

theorem ltc_target_bound (height : ℤ) (store : Store) (chain : Chain) (b t : ℕ)
    (hok : PoW.get_target height store chain = .ok (b, t)) :
    0 < t ∧ t ≤ PoW.get_max_target := by
  have hval : PoW.normalize_target_to_bits ((PoW.get_max_target : ℕ) : ℤ) =
      (0x1e0ffff0, PoW.get_max_target) := by decide
  simp only [PoW.get_target] at hok
  repeat' split at hok
  all_goals try exact Except.noConfusion hok
  all_goals have hp := Except.ok.inj hok
  all_goals try rw [hval] at hp
  all_goals simp only [Prod.mk.injEq] at hp
  all_goals obtain ⟨rfl, rfl⟩ := hp
  all_goals decide

theorem orig_target_bound (height : ℤ) (store : Store) (chain : Chain) (b t : ℕ)
    (hok : PoW_AUR.get_target_original height store chain = .ok (b, t)) :
    0 < t ∧ (t ≤ PoW_AUR.get_max_target .scrypt ∨
      ∃ l, store (height - 1) = some l ∧ t = PoW.bits_to_target l.bits) := by
  simp only [PoW_AUR.get_target_original] at hok
  split at hok
  · have hp := Except.ok.inj hok
    simp only [Prod.mk.injEq] at hp
    obtain ⟨rfl, rfl⟩ := hp
    exact ⟨by decide, Or.inl le_rfl⟩
  · split at hok
    · have hp := Except.ok.inj hok
      simp only [Prod.mk.injEq] at hp
      obtain ⟨rfl, rfl⟩ := hp
      exact ⟨by decide, Or.inl le_rfl⟩
    · cases hlast : PoW_AUR.get_header store none (height - 1) with
      | error e =>
        simp only [hlast] at hok
        exact Except.noConfusion hok
      | ok o =>
        simp only [hlast] at hok
        cases o with
        | none => exact Except.noConfusion hok
        | some last =>
          cases hdec : PoW.bits_to_target_checked last.bits with
          | error e =>
            simp only [hdec] at hok
            exact Except.noConfusion hok
          | ok rt =>
            simp only [hdec] at hok
            have hrt := checked_ok _ _ hdec
            have hrange := validBits_range _ (checked_valid _ _ hdec)
            split at hok
            · have hp := Except.ok.inj hok
              simp only [Prod.mk.injEq] at hp
              obtain ⟨rfl, rfl⟩ := hp
              refine ⟨by omega, Or.inr ⟨last, get_header_store_of_ok _ _ _ hlast, hrt⟩⟩
            · cases hfirst : PoW_AUR.get_header store chain
                  (if height = 8 then 0 else height - 1 - 8) with
              | error e =>
                simp only [hfirst] at hok
                exact Except.noConfusion hok
              | ok fo =>
                simp only [hfirst] at hok
                cases fo with
                | none => exact Except.noConfusion hok
                | some first =>
                  have hp := Except.ok.inj hok
                  have ht : t = (PoW.normalize_target_to_bits _).2 :=
                    (congrArg Prod.snd hp).symm
                  have e1 : ((4800 : ℤ) * 50).fdiv 75 = 3200 := by decide
                  have e2 : ((4800 : ℤ) * 75).fdiv 50 = 7200 := by decide
                  have hrtn : 0x8000 ≤ rt := by omega
                  have hrti : (32768 : ℤ) ≤ (rt : ℤ) := by exact_mod_cast hrtn
                  rw [ht]
                  constructor
                  · apply normalize_snd_pos_of
                    · rw [e1, e2, Int.fdiv_eq_ediv _ (by norm_num)]
                      refine le_min
                        (by exact_mod_cast
                          (by decide : 1 ≤ PoW_AUR.get_max_target .scrypt)) ?_
                      rw [Int.le_ediv_iff_mul_le (by norm_num)]
                      have hA : (3200 : ℤ) ≤
                          min (max (last.timestamp - first.timestamp) 3200) 7200 :=
                        le_min (le_max_right _ _) (by norm_num)
                      have hmul := mul_le_mul hrti hA (by norm_num) (by positivity)
                      linarith
                    · refine lt_of_le_of_lt (min_le_left _ _) ?_
                      exact_mod_cast
                        (by decide : PoW_AUR.get_max_target .scrypt < 2 ^ 248)
                  · refine Or.inl (normalize_snd_le_of _ _ ?_ (min_le_left _ _)
                      (by decide))
                    rw [e1, e2]
                    refine le_min (by positivity)
                      (Int.fdiv_nonneg (mul_nonneg (by positivity) ?_) (by norm_num))
                    exact le_trans (by norm_num : (0 : ℤ) ≤ 3200)
                      (le_min (le_max_right _ _) (by norm_num))

theorem kgw_target_bound (height : ℤ) (store : Store) (chain : Chain) (horizon : ℕ → ℚ)
    (b t : ℕ) (hok : PoW_AUR.get_target_KGW height store chain horizon = .ok (b, t)) :
    t ≤ PoW_AUR.get_max_target .scrypt := by
  by_cases hc : height - 1 = 0 ∨ height - 1 < ((144 : ℕ) : ℤ)
  · simp only [PoW_AUR.get_target_KGW, PoW_AUR.kimotoGravityWell] at hok
    rw [if_pos hc] at hok
    have hp := Except.ok.inj hok
    simp only [Prod.mk.injEq] at hp
    obtain ⟨rfl, rfl⟩ := hp
    exact le_rfl
  · simp only [PoW_AUR.get_target_KGW] at hok
    obtain ⟨m, lh, hlh, hm1, hm2, hr⟩ :=
      kimoto_spec height store chain 300 144 4032 horizon (b, t) hc (by norm_num) hok
    set V := kgwAvg (kgwTargetAt store chain height) m with hV
    set A := kgwActualAt lh.timestamp store chain height m with hA
    have hV0 : 0 ≤ V := by
      rw [hV]
      exact kgwAvg_nonneg _ (fun j => kgwTargetAt_nonneg _ _ _ _) m
    have hA0 : 0 ≤ A := by
      rw [hA]
      exact kgwActualAt_nonneg _ _ _ _ _
    set S := if A ≠ 0 ∧ (300 : ℤ) * (m : ℤ) ≠ 0 then
        (V * A).fdiv ((300 : ℤ) * (m : ℤ)) else V with hS
    have hS0 : 0 ≤ S := by
      rw [hS]
      split
      · exact Int.fdiv_nonneg (mul_nonneg hV0 hA0) (by positivity)
      · exact hV0
    have hcr := clamp_range ((PoW_AUR.get_max_target .scrypt : ℕ) : ℤ) S
      (Int.natCast_nonneg _) hS0
    have ht : t = (PoW.normalize_target_to_bits
        (if ((PoW_AUR.get_max_target .scrypt : ℕ) : ℤ) < S then
          ((PoW_AUR.get_max_target .scrypt : ℕ) : ℤ) else S)).2 :=
      congrArg Prod.snd hr
    rw [ht]
    exact normalize_snd_le_of _ _ hcr.1 hcr.2 (by decide)

/-- C6 counterexample: the claim's clamp `target ≤ max_target(algo)` fails for
the legacy linear variant.  At height 141 (echo branch, `height % 8 ≠ 0`) over
a history whose height-140 header carries bits `0x1e7fffff`, the policy
completes and returns the previous header's target verbatim, which exceeds
`get_max_target(SCRYPT)`. -/
theorem C6_counterexample :
    PoW_AUR.get_target_original 141 storeF (some []) =
        .ok (0x1e7fffff, 0x7fffff * 2 ^ 216) ∧
      PoW_AUR.get_max_target .scrypt < 0x7fffff * 2 ^ 216 :=
  ⟨by decide, by decide⟩

/-- C6 (amended): bounds that the three retarget policies actually guarantee
on every completed run.  The classic linear policy (`PoW.get_target`) returns
a target in `(0, max_target]`.  The legacy linear variant
(`PoW_AUR.get_target_original`) returns a positive target that is either
clamped to `max_target(SCRYPT)` or — in the echo branch taken when
`height % 8 ≠ 0` — the previous header's decoded target verbatim, unclamped.
The KGW policy (`PoW_AUR.get_target_KGW`) clamps from above by
`max_target(SCRYPT)` but does not guarantee positivity. -/
theorem C6_target_bounds :
    (∀ (height : ℤ) (store : Store) (chain : Chain) (b t : ℕ),
      PoW.get_target height store chain = .ok (b, t) →
      0 < t ∧ t ≤ PoW.get_max_target) ∧
    (∀ (height : ℤ) (store : Store) (chain : Chain) (b t : ℕ),
      PoW_AUR.get_target_original height store chain = .ok (b, t) →
      0 < t ∧ (t ≤ PoW_AUR.get_max_target .scrypt ∨
        ∃ l, store (height - 1) = some l ∧ t = PoW.bits_to_target l.bits)) ∧
    (∀ (height : ℤ) (store : Store) (chain : Chain) (horizon : ℕ → ℚ) (b t : ℕ),
      PoW_AUR.get_target_KGW height store chain horizon = .ok (b, t) →
      t ≤ PoW_AUR.get_max_target .scrypt) :=
  ⟨ltc_target_bound, orig_target_bound, kgw_target_bound⟩

/-- Witness for the amended C6 theorem: each of the three bounds applied at a
concrete completed run (classic policy at genesis, legacy variant in the echo
branch over `storeF`, KGW in its early-return branch over the empty store). -/
theorem C6_target_bounds_witness :
    (0 < PoW.get_max_target ∧ PoW.get_max_target ≤ PoW.get_max_target) ∧
    (0 < 0x7fffff * 2 ^ 216 ∧
      (0x7fffff * 2 ^ 216 ≤ PoW_AUR.get_max_target .scrypt ∨
        ∃ l, storeF ((141 : ℤ) - 1) = some l ∧
          0x7fffff * 2 ^ 216 = PoW.bits_to_target l.bits)) ∧
    PoW_AUR.get_max_target .scrypt ≤ PoW_AUR.get_max_target .scrypt :=
  ⟨C6_target_bounds.1 0 storeE (some []) PoW.get_pow_limit PoW.get_max_target (by decide),
   C6_target_bounds.2.1 141 storeF (some []) 0x1e7fffff (0x7fffff * 2 ^ 216) (by decide),
   C6_target_bounds.2.2 100 storeE (some []) horTwo (PoW_AUR.get_pow_limit .scrypt)
     (PoW_AUR.get_max_target .scrypt) (by decide)⟩
